import Mathlib

/-!
Shallow embedding of the core of the `google-drive-screenshot-tool`
repository: the fuzzy file matcher (`src/enhanced_file_matcher.py`) and the
forensic metadata verifier (`src/forensic_verifier.py`), together with
theorems settling the frozen claims about them.

Python machine floats are modelled as exact rationals (`ℚ`); Python's
unbounded ints as `Int`/`Nat`.  String normalisation (`str.lower`,
`str.strip`, `\s`, `\d`) is modelled on the ASCII range, which covers the
data this tool processes.
-/

/-! ## Python string primitives -/

/-- Model of the whitespace class used by `str.strip()` / regex `\s`
(ASCII part: space, tab, newline, carriage return, vertical tab, form feed). -/
def pyIsSpace (c : Char) : Bool :=
  c = ' ' || c = '\t' || c = '\n' || c = '\r' || c = Char.ofNat 11 || c = Char.ofNat 12

/-- Model of `str.lower()` (ASCII range). -/
def pyLowerChar (c : Char) : Char :=
  if 65 ≤ c.toNat ∧ c.toNat ≤ 90 then Char.ofNat (c.toNat + 32) else c

/-- `s.lower()` applied characterwise. -/
def pyLower (s : String) : String := String.mk (s.data.map pyLowerChar)

/-- `s.strip()`: drop leading and trailing whitespace. -/
def pyStripList (l : List Char) : List Char :=
  ((l.dropWhile pyIsSpace).reverse.dropWhile pyIsSpace).reverse

def pyStrip (s : String) : String := String.mk (pyStripList s.data)

/-- `s.lower().strip()` as used by `calculate_similarity`. -/
def pyNorm (s : String) : String := pyStrip (pyLower s)

/-- Model of Python's `needle in hay` (contiguous substring test).
`"" in s` is true, matching Python. -/
def pyIn (needle : List Char) : List Char → Bool
  | [] => needle.isEmpty
  | c :: t => needle.isPrefixOf (c :: t) || pyIn needle t

/-- Helper for `pySplit`: accumulate the current word (reversed). -/
def pySplitAux : List Char → List Char → List (List Char)
  | [], cur => if cur.isEmpty then [] else [cur.reverse]
  | c :: t, cur =>
    if pyIsSpace c then
      if cur.isEmpty then pySplitAux t [] else cur.reverse :: pySplitAux t []
    else pySplitAux t (c :: cur)

/-- `s.split()` with no separator: split on whitespace runs, dropping
empty pieces. -/
def pySplit (l : List Char) : List (List Char) := pySplitAux l []

/-- Model of Python's regex digit / `str.isdigit` on ASCII. -/
def pyIsDigit (c : Char) : Bool := 48 ≤ c.toNat && c.toNat ≤ 57

/-- Numeric value of a list of ASCII digits (most significant first),
as computed by Python's `int()` on a digit string. -/
def digitsVal (ds : List Char) : Nat :=
  ds.foldl (fun acc c => acc * 10 + (c.toNat - 48)) 0

/-- Insert `x` after every element that may precede it (`le y x`). -/
def insertLe {α : Type} (le : α → α → Bool) (x : α) : List α → List α
  | [] => [x]
  | y :: t => if le y x then y :: insertLe le x t else x :: y :: t

/-- Stable sort by the total preorder `le` (`le a b` = "`a` may precede
`b`").  Python's `list.sort` is stable, and a stable sort of a total
preorder is unique, so insertion sort models it exactly (and, unlike a
well-founded-recursion merge sort, reduces inside the kernel). -/
def stableSort {α : Type} (le : α → α → Bool) (l : List α) : List α :=
  l.foldl (fun acc x => insertLe le x acc) []

instance {ε α : Type} [DecidableEq ε] [DecidableEq α] : DecidableEq (Except ε α) := fun a b =>
  match a, b with
  | .ok x, .ok y =>
    match decEq x y with
    | .isTrue h => .isTrue (by rw [h])
    | .isFalse h => .isFalse (fun hh => h (Except.ok.inj hh))
  | .error x, .error y =>
    match decEq x y with
    | .isTrue h => .isTrue (by rw [h])
    | .isFalse h => .isFalse (fun hh => h (Except.error.inj hh))
  | .ok _, .error _ => .isFalse Except.noConfusion
  | .error _, .ok _ => .isFalse Except.noConfusion

/-! ## difflib.SequenceMatcher (used by the fuzzy tier of the scorer)

A faithful model of `SequenceMatcher(None, a, b).ratio()` from the Python
standard library: the sum of the sizes of the matching blocks found by
repeated `find_longest_match` splitting, scaled by `2 / (len a + len b)`.
-/

/-- `a[i]` on a char list (indices produced by the algorithm are in range). -/
def getC (l : List Char) (i : Nat) : Char := l.getD i ' '

/-- `b2j`: ascending list of positions of `c` in `b`, with difflib's
"autojunk" rule: when `len(b) >= 200`, characters occurring more than
`len(b) // 100 + 1` times are dropped from the index. -/
def b2j (b : List Char) (c : Char) : List Nat :=
  let idxs := (List.range b.length).filter (fun i => getC b i == c)
  if b.length ≥ 200 ∧ idxs.length > b.length / 100 + 1 then [] else idxs

/-- Lookup in the `j2len` association list, defaulting to 0. -/
def lookupD (m : List (Nat × Nat)) (k : Nat) : Nat :=
  (((m.find? (fun p => p.1 == k)).map (fun p => p.2)).getD 0)

/-- State of `find_longest_match`: best block start in `a`, start in `b`, size. -/
structure FLMState where
  besti : Nat
  bestj : Nat
  bestsize : Nat
deriving DecidableEq, Repr

/-- Inner loop of `find_longest_match` over the ascending positions of
`a[i]` in `b`; `continue` below `blo`, `break` at `bhi`. -/
def flmInner (i blo bhi : Nat) (j2len : List (Nat × Nat)) :
    List Nat → List (Nat × Nat) × FLMState → List (Nat × Nat) × FLMState
  | [], acc => acc
  | j :: js, (newj2len, st) =>
    if j < blo then flmInner i blo bhi j2len js (newj2len, st)
    else if bhi ≤ j then (newj2len, st)
    else
      let k := (if j = 0 then 0 else lookupD j2len (j - 1)) + 1
      let st' := if k > st.bestsize then FLMState.mk (i + 1 - k) (j + 1 - k) k else st
      flmInner i blo bhi j2len js ((j, k) :: newj2len, st')

/-- The `while besti > alo and bestj > blo and a[besti-1] == b[bestj-1]`
extension (no junk: `isjunk` is `None`, so `bjunk` is empty). Fuel is
`besti`, which strictly decreases. -/
def flmExtendFront (a b : List Char) (alo blo : Nat) :
    Nat → Nat → Nat → Nat → Nat × Nat × Nat
  | 0, besti, bestj, bestsize => (besti, bestj, bestsize)
  | fuel + 1, besti, bestj, bestsize =>
    if alo < besti ∧ blo < bestj ∧ getC a (besti - 1) = getC b (bestj - 1) then
      flmExtendFront a b alo blo fuel (besti - 1) (bestj - 1) (bestsize + 1)
    else (besti, bestj, bestsize)

/-- The symmetric trailing extension while `besti+bestsize < ahi` etc. -/
def flmExtendBack (a b : List Char) (ahi bhi : Nat) :
    Nat → Nat → Nat → Nat → Nat × Nat × Nat
  | 0, besti, bestj, bestsize => (besti, bestj, bestsize)
  | fuel + 1, besti, bestj, bestsize =>
    if besti + bestsize < ahi ∧ bestj + bestsize < bhi ∧
        getC a (besti + bestsize) = getC b (bestj + bestsize) then
      flmExtendBack a b ahi bhi fuel besti bestj (bestsize + 1)
    else (besti, bestj, bestsize)

/-- `SequenceMatcher.find_longest_match(alo, ahi, blo, bhi)`. -/
def find_longest_match (a b : List Char) (alo ahi blo bhi : Nat) : Nat × Nat × Nat :=
  let step := fun (acc : List (Nat × Nat) × FLMState) (i : Nat) =>
    flmInner i blo bhi acc.1 (b2j b (getC a i)) ([], acc.2)
  let st := ((List.range' alo (ahi - alo)).foldl step ([], FLMState.mk alo blo 0)).2
  let (bi, bj, bs) := flmExtendFront a b alo blo st.besti st.besti st.bestj st.bestsize
  flmExtendBack a b ahi bhi (ahi - (bi + bs)) bi bj bs

/-- Total size of all matching blocks collected by
`get_matching_blocks`' queue-based splitting (only the sum matters for
`ratio`).  Fuel bounds the recursion depth; `(ahi-alo)+(bhi-blo)` strictly
decreases at each split, so the initial fuel in `sequenceMatcherRatio`
never runs out. -/
def matchTotal (a b : List Char) : Nat → Nat → Nat → Nat → Nat → Nat
  | 0, _, _, _, _ => 0
  | fuel + 1, alo, ahi, blo, bhi =>
    let (i, j, k) := find_longest_match a b alo ahi blo bhi
    if k = 0 then 0
    else
      k + (if alo < i ∧ blo < j then matchTotal a b fuel alo i blo j else 0) +
        (if i + k < ahi ∧ j + k < bhi then matchTotal a b fuel (i + k) ahi (j + k) bhi else 0)

/-- `SequenceMatcher(None, a, b).ratio() = 2 * M / (len a + len b)`
(1.0 when both empty). -/
def sequenceMatcherRatio (a b : List Char) : ℚ :=
  let total := matchTotal a b (a.length + b.length + 1) 0 a.length 0 b.length
  if a.length + b.length = 0 then 1
  else 2 * (total : ℚ) / ((a.length : ℚ) + (b.length : ℚ))

/-! ## EnhancedFileMatcher (`src/enhanced_file_matcher.py`) -/

/-- The matcher's two configuration thresholds. -/
structure EnhancedFileMatcher where
  similarity_threshold : ℚ
  duplicate_threshold : ℚ
deriving DecidableEq, Repr

/-- `EnhancedFileMatcher.calculate_similarity`: exact-match tier (1.0),
substring tier (`0.85 + 0.15 * coverage`), then the fuzzy tier
(`0.7 * SequenceMatcher ratio + 0.3 * word overlap`). -/
def calculate_similarity (search_term candidate : String) : ℚ :=
  let search_lower := pyNorm search_term
  let candidate_lower := pyNorm candidate
  if search_lower = candidate_lower then 1
  else if pyIn search_lower.data candidate_lower.data then
    let coverage : ℚ := (search_lower.length : ℚ) / (candidate_lower.length : ℚ)
    0.85 + 0.15 * coverage
  else
    let base_similarity := sequenceMatcherRatio search_lower.data candidate_lower.data
    let search_words := (pySplit search_lower.data).dedup
    let candidate_words := (pySplit candidate_lower.data).dedup
    let word_overlap : ℚ :=
      ((search_words.filter (fun w => w ∈ candidate_words)).length : ℚ) /
        (max search_words.length 1 : ℚ)
    base_similarity * 0.7 + word_overlap * 0.3

/-- Recogniser for the regex `r'\s*<open>(\d+)<close>\s*$'` (patterns `[n]`
and `(n)`), working on the reversed character list: trailing whitespace,
closing char, one or more digits, opening char.  Returns the untouched
prefix (in original order) and the parsed number. -/
def matchEnclosedSuffix (openC closeC : Char) (rl : List Char) : Option (List Char × Nat) :=
  match rl.dropWhile pyIsSpace with
  | [] => none
  | c :: r2 =>
    if c = closeC then
      let ds := r2.takeWhile pyIsDigit
      if ds.isEmpty then none
      else
        match r2.dropWhile pyIsDigit with
        | [] => none
        | o :: pre => if o = openC then some (pre.reverse, digitsVal ds.reverse) else none
    else none

/-- Recogniser for the regex `r'\s*#(\d+)\s*$'` on the reversed list. -/
def matchHashSuffix (rl : List Char) : Option (List Char × Nat) :=
  match rl.dropWhile pyIsSpace with
  | [] => none
  | c :: r2 =>
    if pyIsDigit c then
      let ds := (c :: r2).takeWhile pyIsDigit
      match (c :: r2).dropWhile pyIsDigit with
      | [] => none
      | o :: pre => if o = '#' then some (pre.reverse, digitsVal ds.reverse) else none
    else none

/-- Decimal digits of a natural number, most significant first
(accumulator form; used to render Python `int` values and f-string
numbers). -/
def natCharsAux : Nat → List Char → List Char
  | n, acc =>
    if h : n < 10 then Char.ofNat (48 + n) :: acc
    else natCharsAux (n / 10) (Char.ofNat (48 + n % 10) :: acc)
termination_by n _ => n
decreasing_by exact Nat.div_lt_self (by omega) (by omega)

def natChars (n : Nat) : List Char := natCharsAux n []

/-- `str(n)` for a Python `int` that is a natural number. -/
def natToString (n : Nat) : String := String.mk (natChars n)

/-- `str(n)` / `json.dumps(n)` for a Python `int`. -/
def intChars (n : Int) : List Char :=
  if n < 0 then '-' :: natChars (-n).toNat else natChars n.toNat

/-- `EnhancedFileMatcher.parse_indexed_search`: try the `[n]`, `#n`, `(n)`
suffix patterns in that order; on a match strip the suffix (the net effect
of `re.sub(pattern, '', s).strip()`) and return the parsed integer. -/
def parse_indexed_search (search_term : String) : String × Option Nat :=
  let rl := search_term.data.reverse
  match matchEnclosedSuffix '[' ']' rl with
  | some (pre, n) => (String.mk (pyStripList pre), some n)
  | none =>
    match matchHashSuffix rl with
    | some (pre, n) => (String.mk (pyStripList pre), some n)
    | none =>
      match matchEnclosedSuffix '(' ')' rl with
      | some (pre, n) => (String.mk (pyStripList pre), some n)
      | none => (search_term, none)

/-- Python `abs()` on a rational (kernel-reducible, unlike the lattice
`|.|`). -/
def pyAbs (x : ℚ) : ℚ := if x < 0 then -x else x

/-- One scored match: `(candidate, score)`. -/
abbrev ScoredMatch := String × ℚ

/-- The accumulation loop of the duplicate detector
(`find_matches_with_duplicates`, lines 111-130): walk the sorted match
list; when the gap to the previous score is `< 1.0 - duplicate_threshold`
the match joins the current group, otherwise the current group is emitted
(if it has more than one member) and a new group starts. -/
def dupGroupsLoop (closeGap : ℚ) :
    ScoredMatch → List ScoredMatch → List ScoredMatch → List (List ScoredMatch)
  | _, cur, [] => if cur.length > 1 then [cur] else []
  | prev, cur, m :: rest =>
    if pyAbs (prev.2 - m.2) < closeGap then dupGroupsLoop closeGap m (cur ++ [m]) rest
    else (if cur.length > 1 then [cur] else []) ++ dupGroupsLoop closeGap m [m] rest

/-- Duplicate grouping over the sorted filtered match list: groups of
score-adjacent matches with more than one member.  Lists with at most one
match produce no groups (the source guards the loop with
`len(matches) > 1`). -/
def detectDuplicateGroups (duplicate_threshold : ℚ) :
    List ScoredMatch → List (List ScoredMatch)
  | [] => []
  | [_] => []
  | m :: rest => dupGroupsLoop (1 - duplicate_threshold) m [m] rest

/-- Specification-style chunking of a scored list into maximal runs:
a new run starts exactly when the gap to the previous score is
`≥ closeGap` (i.e. NOT strictly below it).  Used to characterise
`dupGroupsLoop`. -/
def chunkRuns (closeGap : ℚ) :
    ScoredMatch → List ScoredMatch → List ScoredMatch → List (List ScoredMatch)
  | _, cur, [] => [cur]
  | prev, cur, m :: rest =>
    if pyAbs (prev.2 - m.2) < closeGap then chunkRuns closeGap m (cur ++ [m]) rest
    else cur :: chunkRuns closeGap m [m] rest

/-- Result dictionary of `find_matches_with_duplicates`. -/
structure MatchResult where
  -- source dict key: 'matches' (a reserved word in Lean)
  matches_ : List ScoredMatch
  has_duplicates : Bool
  duplicate_groups : List (List ScoredMatch)
  search_term : String
  clean_search : String
  requested_index : Option Nat
  total_matches : Nat
deriving DecidableEq, Repr

/-- `EnhancedFileMatcher.find_matches_with_duplicates`: parse the query,
score all candidates, filter by `similarity_threshold`, stable-sort
descending by score, detect duplicate groups on the full sorted list, and
truncate the returned matches to `max_results`. -/
def find_matches_with_duplicates (m : EnhancedFileMatcher) (search_term : String)
    (candidates : List String) (max_results : Nat) : MatchResult :=
  let parsed := parse_indexed_search search_term
  let clean_search := parsed.1
  let requested_index := parsed.2
  let scored := candidates.map (fun c => (c, calculate_similarity clean_search c))
  let filtered := scored.filter (fun cs => decide (m.similarity_threshold ≤ cs.2))
  let sorted := stableSort (fun x y => decide (y.2 ≤ x.2)) filtered
  let duplicate_groups := detectDuplicateGroups m.duplicate_threshold sorted
  { matches_ := sorted.take max_results
    has_duplicates := !duplicate_groups.isEmpty
    duplicate_groups := duplicate_groups
    search_term := search_term
    clean_search := clean_search
    requested_index := requested_index
    total_matches := sorted.length }

/-! ### Metadata values for `select_best_match` -/

/-- A Python value held in a metadata dict supplied to
`select_best_match` (the tool's metadata holds strings and ints). -/
inductive PyVal where
  | str (s : String)
  | int (n : Int)
deriving DecidableEq, Repr

/-- A metadata dict (`{'modifiedTime': ..., 'size': ...}`). -/
abbrev MetaDict := List (String × PyVal)

/-- Digit run with single underscores between digits, as accepted by
Python's `int()` (e.g. `int("1_0") == 10`). -/
def parseUDigitsAux : List Char → Nat → Option Nat
  | [], acc => some acc
  | '_' :: c :: t, acc =>
    if pyIsDigit c then parseUDigitsAux t (acc * 10 + (c.toNat - 48)) else none
  | ['_'], _ => none
  | c :: t, acc =>
    if pyIsDigit c then parseUDigitsAux t (acc * 10 + (c.toNat - 48)) else none

def parseUDigits : List Char → Option Nat
  | [] => none
  | c :: t => if pyIsDigit c then parseUDigitsAux t (c.toNat - 48) else none

/-- Model of Python `int(s)` on a string: optional surrounding whitespace,
optional sign, then digits; anything else raises `ValueError`. -/
def pyIntOfStr (s : String) : Except String Int :=
  match pyStripList s.data with
  | '-' :: rest =>
    match parseUDigits rest with
    | some n => .ok (-(n : Int))
    | none => .error "ValueError"
  | '+' :: rest =>
    match parseUDigits rest with
    | some n => .ok (n : Int)
    | none => .error "ValueError"
  | l =>
    match parseUDigits l with
    | some n => .ok (n : Int)
    | none => .error "ValueError"

/-- Model of Python `int(x)` on a metadata value: ints pass through,
strings are parsed (raising `ValueError` when non-numeric). -/
def pyIntOfVal : PyVal → Except String Int
  | .int n => .ok n
  | .str s => pyIntOfStr s

/-- The `newest` / `oldest` branches: sort the zipped
`(match, metadata)` pairs by the `modifiedTime` key (default `''`).
Comparing values of mixed types raises `TypeError` in Python 3; keys of a
uniform type sort lexicographically (strings) or numerically (ints). -/
def selectByTimeKey (ms : List ScoredMatch) (keys : List PyVal)
    (desc : Bool) (reason : String) : Except String (Option (String × ℚ × String)) :=
  if keys.all (fun v => match v with | .str _ => true | .int _ => false) then
    let ks := keys.map (fun v => match v with | .str s => s | .int _ => "")
    let sorted := stableSort
      (fun x y => if desc then decide (y.2 ≤ x.2) else decide (x.2 ≤ y.2)) (ms.zip ks)
    match sorted.head? with
    | some p => .ok (some (p.1.1, p.1.2, reason))
    | none => .ok none
  else if keys.all (fun v => match v with | .int _ => true | .str _ => false) then
    let ks := keys.map (fun v => match v with | .int n => n | .str _ => 0)
    let sorted := stableSort
      (fun x y => if desc then decide (y.2 ≤ x.2) else decide (x.2 ≤ y.2)) (ms.zip ks)
    match sorted.head? with
    | some p => .ok (some (p.1.1, p.1.2, reason))
    | none => .ok none
  else .error "TypeError"

/-- The `largest` branch: `combined.sort(key=lambda x: int(x[1].get('size', 0)),
reverse=True)` — the key function runs `int()` on every size field before
any comparison, so a non-numeric size raises `ValueError`. -/
def selectLargest (ms : List ScoredMatch) (md : List MetaDict) :
    Except String (Option (String × ℚ × String)) := do
  let keys ← md.mapM (fun d => pyIntOfVal ((d.lookup "size").getD (.int 0)))
  let sorted := stableSort (fun x y => decide (y.2 ≤ x.2)) (ms.zip keys)
  match sorted.head? with
  | some p => .ok (some (p.1.1, p.1.2, "Selected by largest file size"))
  | none => .ok none

/-- `EnhancedFileMatcher.select_best_match`.  Mirrors the source's branch
order: empty matches, `indexed` (only when an index was parsed), `ask`,
`first`, the metadata block (`newest`/`oldest`/`largest`, only entered
when metadata is truthy and length-aligned), and the final
"First match (default)" fall-through. -/
def select_best_match (result : MatchResult) (strategy : String)
    (metadata : Option (List MetaDict)) : Except String (Option (String × ℚ × String)) :=
  match result.matches_ with
  | [] => .ok none
  | (f0, s0) :: _ =>
    if strategy = "indexed" ∧ result.requested_index.isSome then
      let ri := result.requested_index.getD 0
      -- idx = ri - 1 (0-based); in range iff 0 <= ri-1 < len(matches)
      if 1 ≤ ri ∧ ri ≤ result.matches_.length then
        match result.matches_[ri - 1]? with
        | some p => .ok (some (p.1, p.2, "Selected by index #" ++ natToString ri))
        | none => .ok none
      else
        .ok (some (f0, s0, "Index #" ++ natToString ri ++ " out of range, using first match"))
    else if strategy = "ask" then .ok none
    else if strategy = "first" then
      .ok (some (f0, s0,
        if result.has_duplicates then
          "Highest similarity score (duplicates detected - consider using index notation)"
        else "Highest similarity score"))
    else
      match metadata with
      | some md =>
        if !md.isEmpty ∧ md.length = result.matches_.length then
          if strategy = "newest" then
            selectByTimeKey result.matches_
              (md.map (fun d => (d.lookup "modifiedTime").getD (.str ""))) true
              "Selected by newest modified date"
          else if strategy = "oldest" then
            selectByTimeKey result.matches_
              (md.map (fun d => (d.lookup "modifiedTime").getD (.str ""))) false
              "Selected by oldest modified date"
          else if strategy = "largest" then selectLargest result.matches_ md
          else .ok (some (f0, s0, "First match (default)"))
        else .ok (some (f0, s0, "First match (default)"))
      | none => .ok (some (f0, s0, "First match (default)"))

/-! ## JSON metadata values and `json.dumps` (`src/forensic_verifier.py`)

A `MetadataRecord` is an arbitrary JSON-serialisable Python value.  The
model covers the value kinds this tool's metadata contains (the Drive API
returns the relevant fields as strings or null; callers may nest lists and
dicts); Python `None` and JSON `null` coincide. -/

inductive Json where
  | null
  | int (n : Int)
  | str (s : String)
  | arr (xs : List Json)
  | obj (kvs : List (String × Json))

mutual

/-- Decidable structural equality for `Json` (the automatic derive does
not handle nested inductives). -/
def decEqJson : (a b : Json) → Decidable (a = b)
  | .null, .null => .isTrue rfl
  | .int a, .int b =>
    match decEq a b with
    | .isTrue h => .isTrue (by rw [h])
    | .isFalse h => .isFalse (fun hh => h (Json.int.inj hh))
  | .str a, .str b =>
    match decEq a b with
    | .isTrue h => .isTrue (by rw [h])
    | .isFalse h => .isFalse (fun hh => h (Json.str.inj hh))
  | .arr a, .arr b =>
    match decEqJsonList a b with
    | .isTrue h => .isTrue (by rw [h])
    | .isFalse h => .isFalse (fun hh => h (Json.arr.inj hh))
  | .obj a, .obj b =>
    match decEqJsonKVs a b with
    | .isTrue h => .isTrue (by rw [h])
    | .isFalse h => .isFalse (fun hh => h (Json.obj.inj hh))
  | .null, .int _ => .isFalse Json.noConfusion
  | .null, .str _ => .isFalse Json.noConfusion
  | .null, .arr _ => .isFalse Json.noConfusion
  | .null, .obj _ => .isFalse Json.noConfusion
  | .int _, .null => .isFalse Json.noConfusion
  | .int _, .str _ => .isFalse Json.noConfusion
  | .int _, .arr _ => .isFalse Json.noConfusion
  | .int _, .obj _ => .isFalse Json.noConfusion
  | .str _, .null => .isFalse Json.noConfusion
  | .str _, .int _ => .isFalse Json.noConfusion
  | .str _, .arr _ => .isFalse Json.noConfusion
  | .str _, .obj _ => .isFalse Json.noConfusion
  | .arr _, .null => .isFalse Json.noConfusion
  | .arr _, .int _ => .isFalse Json.noConfusion
  | .arr _, .str _ => .isFalse Json.noConfusion
  | .arr _, .obj _ => .isFalse Json.noConfusion
  | .obj _, .null => .isFalse Json.noConfusion
  | .obj _, .int _ => .isFalse Json.noConfusion
  | .obj _, .str _ => .isFalse Json.noConfusion
  | .obj _, .arr _ => .isFalse Json.noConfusion

def decEqJsonList : (a b : List Json) → Decidable (a = b)
  | [], [] => .isTrue rfl
  | [], _ :: _ => .isFalse List.noConfusion
  | _ :: _, [] => .isFalse List.noConfusion
  | x :: xs, y :: ys =>
    match decEqJson x y, decEqJsonList xs ys with
    | .isTrue h1, .isTrue h2 => .isTrue (by rw [h1, h2])
    | .isFalse h1, _ => .isFalse (fun hh => h1 (List.cons.inj hh).1)
    | _, .isFalse h2 => .isFalse (fun hh => h2 (List.cons.inj hh).2)

def decEqJsonKVs : (a b : List (String × Json)) → Decidable (a = b)
  | [], [] => .isTrue rfl
  | [], _ :: _ => .isFalse List.noConfusion
  | _ :: _, [] => .isFalse List.noConfusion
  | (k1, v1) :: xs, (k2, v2) :: ys =>
    match decEq k1 k2, decEqJson v1 v2, decEqJsonKVs xs ys with
    | .isTrue h1, .isTrue h2, .isTrue h3 => .isTrue (by rw [h1, h2, h3])
    | .isFalse h1, _, _ =>
      .isFalse (fun hh => h1 (congrArg Prod.fst (List.cons.inj hh).1))
    | _, .isFalse h2, _ =>
      .isFalse (fun hh => h2 (congrArg Prod.snd (List.cons.inj hh).1))
    | _, _, .isFalse h3 => .isFalse (fun hh => h3 (List.cons.inj hh).2)

end

instance : DecidableEq Json := decEqJson

/-- Lowercase hex digit. -/
def hexDigitChar (n : Nat) : Char := "0123456789abcdef".data.getD n '0'

/-- Four lowercase hex digits (used by `\uXXXX` escapes). -/
def hex4 (n : Nat) : List Char :=
  [hexDigitChar (n / 4096 % 16), hexDigitChar (n / 256 % 16),
   hexDigitChar (n / 16 % 16), hexDigitChar (n % 16)]

/-- `json.dumps` escaping of one character (default `ensure_ascii=True`):
short escapes for `"` `\` and the usual control characters, printable
ASCII kept literal, everything else as `\uXXXX` (a surrogate pair beyond
the BMP). -/
def escChar (c : Char) : List Char :=
  if c = Char.ofNat 34 then [Char.ofNat 92, Char.ofNat 34]
  else if c = Char.ofNat 92 then [Char.ofNat 92, Char.ofNat 92]
  else if c = Char.ofNat 8 then [Char.ofNat 92, 'b']
  else if c = Char.ofNat 12 then [Char.ofNat 92, 'f']
  else if c = '\n' then [Char.ofNat 92, 'n']
  else if c = '\r' then [Char.ofNat 92, 'r']
  else if c = '\t' then [Char.ofNat 92, 't']
  else if 32 ≤ c.toNat ∧ c.toNat ≤ 126 then [c]
  else if c.toNat < 65536 then Char.ofNat 92 :: 'u' :: hex4 c.toNat
  else
    let v := c.toNat - 65536
    Char.ofNat 92 :: 'u' :: hex4 (55296 + v / 1024) ++
      Char.ofNat 92 :: 'u' :: hex4 (56320 + v % 1024)

/-- A JSON string literal: quote, escaped body, quote. -/
def dumpStr (s : String) : List Char :=
  Char.ofNat 34 :: s.data.flatMap escChar ++ [Char.ofNat 34]

mutual

/-- `json.dumps` with the default separators `', '` and `': '`.  Object
members are emitted in list order; `canon` below performs the
`sort_keys=True` reordering. -/
def dumpVal : Json → List Char
  | .null => ['n', 'u', 'l', 'l']
  | .int n => intChars n
  | .str s => dumpStr s
  | .arr xs => '[' :: dumpArr xs ++ [']']
  | .obj kvs => Char.ofNat 123 :: dumpObjItems kvs ++ [Char.ofNat 125]

def dumpArr : List Json → List Char
  | [] => []
  | [x] => dumpVal x
  | x :: y :: t => dumpVal x ++ ',' :: ' ' :: dumpArr (y :: t)

def dumpObjItems : List (String × Json) → List Char
  | [] => []
  | [(k, v)] => dumpStr k ++ ':' :: ' ' :: dumpVal v
  | (k, v) :: p :: t => dumpStr k ++ ':' :: ' ' :: dumpVal v ++ ',' :: ' ' :: dumpObjItems (p :: t)

end

mutual

/-- Recursively sort every object's members by key (Python's
`sort_keys=True`; `sorted` is stable and compares strings by code point).
Two Python values are equal as dicts-up-to-key-order iff their `canon`
images are structurally equal. -/
def canon : Json → Json
  | .null => .null
  | .int n => .int n
  | .str s => .str s
  | .arr xs => .arr (canonArr xs)
  | .obj kvs => .obj (stableSort (fun a b => !decide (b.1 < a.1)) (canonObj kvs))

def canonArr : List Json → List Json
  | [] => []
  | x :: t => canon x :: canonArr t

def canonObj : List (String × Json) → List (String × Json)
  | [] => []
  | (k, v) :: t => (k, canon v) :: canonObj t

end

/-- `json.dumps(metadata, sort_keys=True)` as a Lean string. -/
def pyDumpsSorted (metadata : Json) : String := String.mk (dumpVal (canon metadata))

/-- Six lowercase hex digits: a fixed-width encoding of a Unicode scalar
value (< 0x110000 < 16^6). -/
def hex6 (n : Nat) : List Char :=
  [hexDigitChar (n / 1048576 % 16), hexDigitChar (n / 65536 % 16),
   hexDigitChar (n / 4096 % 16), hexDigitChar (n / 256 % 16),
   hexDigitChar (n / 16 % 16), hexDigitChar (n % 16)]

/-- Modelled from the spec: `hashlib.sha256(json_str.encode('utf-8')).hexdigest()`
uses the Python standard library's SHA-256, which is outside this
repository.  The spec asks for "a cryptographic one-way hash (256-bit
class, e.g. SHA-256)" rendered as lowercase hex, and treats distinct
canonical serialisations as yielding distinct digests; the model
idealises collision resistance as injectivity, encoding each character of
the serialisation as six lowercase hex digits. -/
def sha256Hex (s : String) : String :=
  String.mk (s.data.flatMap (fun c => hex6 c.toNat))

/-- `ForensicVerifier.generate_hash`: canonical (key-sorted) JSON
serialisation followed by the (idealised) SHA-256 hex digest. -/
def generate_hash (metadata : Json) : String := sha256Hex (pyDumpsSorted metadata)

/-! ## ForensicVerifier state, comparison and attestation -/

/-- Result dict of `ForensicVerifier.verify_file`. -/
structure FileVerification where
  file_id : Json
  file_name : Json
  before_hash : String
  after_hash : String
  timestamps_match : Bool
  changes : Option (List (String × Json × Json))
deriving DecidableEq

/-- Result dict of `ForensicVerifier.verify_no_changes`.  `timestamp`
holds `datetime.now().isoformat()`, supplied by the caller-visible clock
parameter `now` of the model.  The `file_details` / `violations` keys are
present only in the list-vs-list case / when a violation occurred. -/
structure VerificationResult where
  timestamp : String
  before_hash : String
  after_hash : String
  -- source dict key: 'match' (a reserved word in Lean)
  match_ : Bool
  total_files : Nat
  file_details : Option (List FileVerification)
  violations : Option (List FileVerification)
deriving DecidableEq

/-- The verifier object: its only field is the mutable
`verification_log` created in `__init__`. -/
structure ForensicVerifier where
  verification_log : List VerificationResult
deriving DecidableEq

/-- `d.get(k)` on a Python value: the value under `k` (missing keys and
JSON-null values are both Python `None`); calling `.get` on a non-dict
raises `AttributeError`. -/
def pyGet : Json → String → Except String Json
  | .obj kvs, k => .ok (((kvs.find? (fun p => p.1 == k)).map (fun p => p.2)).getD .null)
  | _, _ => .error "AttributeError"

/-- `ForensicVerifier.generate_file_hash`: hash of the five critical
fields of a single file's metadata. -/
def generate_file_hash (file_metadata : Json) : Except String String := do
  let i ← pyGet file_metadata "id"
  let n ← pyGet file_metadata "name"
  let c ← pyGet file_metadata "createdTime"
  let m ← pyGet file_metadata "modifiedTime"
  let v ← pyGet file_metadata "viewedByMeTime"
  return generate_hash (.obj [("id", i), ("name", n), ("createdTime", c),
    ("modifiedTime", m), ("viewedByMeTime", v)])

/-- `ForensicVerifier.verify_file`: compare the three critical timestamps
of one before/after record pair; `changes` lists the differing ones (in
the fixed order created, modified, viewed) with their before/after
values. -/
def verify_file (before_file after_file : Json) : Except String FileVerification := do
  let file_id ← pyGet before_file "id"
  let file_name ← pyGet before_file "name"
  let bc ← pyGet before_file "createdTime"
  let bm ← pyGet before_file "modifiedTime"
  let bv ← pyGet before_file "viewedByMeTime"
  let ac ← pyGet after_file "createdTime"
  let am ← pyGet after_file "modifiedTime"
  let av ← pyGet after_file "viewedByMeTime"
  let changes := ([("created", bc, ac), ("modified", bm, am), ("viewed", bv, av)]
    : List (String × Json × Json)).filter (fun e => decide (e.2.1 ≠ e.2.2))
  let bh ← generate_file_hash before_file
  let ah ← generate_file_hash after_file
  return { file_id := file_id, file_name := file_name, before_hash := bh,
           after_hash := ah, timestamps_match := changes.isEmpty,
           changes := (if changes.isEmpty then none else some changes) }

/-- The `for before_file, after_file in zip(...)` loop body: apply a
fallible function to every element, propagating the first exception. -/
def mapExcept {α β ε : Type} (f : α → Except ε β) : List α → Except ε (List β)
  | [] => .ok []
  | x :: t => do
    let y ← f x
    let ys ← mapExcept f t
    return y :: ys

/-- The result dict built by `ForensicVerifier.verify_no_changes` (all of
the method except the final `self.verification_log.append`): whole-snapshot
digests and `match`, plus the positional per-file comparison when both
inputs are lists.  `now` models `datetime.now().isoformat()`. -/
def verifyResultOnly (now : String) (before_metadata after_metadata : Json) :
    Except String VerificationResult := do
  let before_hash := generate_hash before_metadata
  let after_hash := generate_hash after_metadata
  let base : VerificationResult :=
    { timestamp := now, before_hash := before_hash, after_hash := after_hash,
      match_ := decide (before_hash = after_hash),
      total_files := (match before_metadata with | .arr l => l.length | _ => 1),
      file_details := none, violations := none }
  match before_metadata, after_metadata with
  | .arr bl, .arr al => do
    let fds ← mapExcept (fun p => verify_file p.1 p.2) (bl.zip al)
    let viols := fds.filter (fun f => !f.timestamps_match)
    pure { base with
            file_details := some fds,
            violations := (if viols.isEmpty then none else some viols) }
  | _, _ => pure base

/-- `ForensicVerifier.verify_no_changes`: the comparison result plus the
post-call object state (the result is appended to `verification_log`;
when the comparison raises, the append is never reached). -/
def verify_no_changes (now : String) (self : ForensicVerifier)
    (before_metadata after_metadata : Json) :
    Except String (VerificationResult × ForensicVerifier) :=
  (verifyResultOnly now before_metadata after_metadata).map
    (fun result => (result, { verification_log := self.verification_log ++ [result] }))

/-! ## Attestation rendering (`generate_attestation`) -/

/-- `'='*70`. -/
def sep70 : String := String.mk (List.replicate 70 '=')

/-- Python `repr` escaping of one character inside a string literal. -/
def reprEscChar (quote : Char) (c : Char) : List Char :=
  if c = Char.ofNat 92 then [Char.ofNat 92, Char.ofNat 92]
  else if c = quote then [Char.ofNat 92, quote]
  else if c = '\n' then [Char.ofNat 92, 'n']
  else if c = '\r' then [Char.ofNat 92, 'r']
  else if c = '\t' then [Char.ofNat 92, 't']
  else if c.toNat < 32 ∨ c.toNat = 127 then
    [Char.ofNat 92, 'x', hexDigitChar (c.toNat / 16), hexDigitChar (c.toNat % 16)]
  else [c]

/-- Python `repr` of a `str`: single-quoted, double-quoted when the string
contains a single quote but no double quote. -/
def pyReprStr (s : String) : String :=
  let quote :=
    if s.data.contains (Char.ofNat 39) ∧ ¬ s.data.contains (Char.ofNat 34) then Char.ofNat 34
    else Char.ofNat 39
  String.mk (quote :: s.data.flatMap (reprEscChar quote) ++ [quote])

mutual

/-- Python `repr` of a parsed-JSON value (`None`, ints, quoted strings,
lists, dicts in insertion order). -/
def pyRepr : Json → String
  | .null => "None"
  | .int n => String.mk (intChars n)
  | .str s => pyReprStr s
  | .arr xs => "[" ++ pyReprList xs ++ "]"
  | .obj kvs => "\x7b" ++ pyReprObj kvs ++ "\x7d"

def pyReprList : List Json → String
  | [] => ""
  | [x] => pyRepr x
  | x :: y :: t => pyRepr x ++ ", " ++ pyReprList (y :: t)

def pyReprObj : List (String × Json) → String
  | [] => ""
  | [(k, v)] => pyReprStr k ++ ": " ++ pyRepr v
  | (k, v) :: p :: t => pyReprStr k ++ ": " ++ pyRepr v ++ ", " ++ pyReprObj (p :: t)

end

/-- Python `str()` of a parsed-JSON value, as used by f-string
interpolation: strings render bare, everything else as `repr`. -/
def pyStr : Json → String
  | .str s => s
  | j => pyRepr j

/-- `str()` of one entry of the `changes` dict:
`'<key>': \x7b'before': <repr>, 'after': <repr>\x7d`. -/
def renderChangeEntry (e : String × Json × Json) : String :=
  pyReprStr e.1 ++ ": \x7b\x27before\x27: " ++ pyRepr e.2.1 ++
    ", \x27after\x27: " ++ pyRepr e.2.2 ++ "\x7d"

/-- `sep.join(parts)`. -/
def joinSep (sep : String) : List String → String
  | [] => ""
  | [x] => x
  | x :: y :: t => x ++ sep ++ joinSep sep (y :: t)

/-- `str()` of the whole `changes` dict (insertion order: created,
modified, viewed — as built by `verify_file`). -/
def renderChanges (chs : List (String × Json × Json)) : String :=
  "\x7b" ++ joinSep ", " (chs.map renderChangeEntry) ++ "\x7d"

/-- One line of the violation enumeration:
`f"  - \x7bv['file_name']\x7d: \x7bv['changes']\x7d"`. -/
def renderViolationLine (v : FileVerification) : String :=
  "  - " ++ pyStr v.file_name ++ ": " ++
    (match v.changes with | some chs => renderChanges chs | none => "None")

/-- `ForensicVerifier.generate_attestation`: the formatted pass or fail
report (transcribed from the f-string templates, including their
trailing spaces). -/
def generate_attestation (verification_result : VerificationResult) : String :=
  if verification_result.match_ then
    "\nFORENSIC INTEGRITY ATTESTATION\n" ++ sep70 ++
    "\n\nVerification Timestamp: " ++ verification_result.timestamp ++
    "\nTotal Files Examined: " ++ natToString verification_result.total_files ++
    "\n\nMETADATA HASH VERIFICATION:\n  Before Hash (SHA-256): " ++
    verification_result.before_hash ++
    "\n  After Hash (SHA-256):  " ++ verification_result.after_hash ++
    "\n  \nRESULT: [PASS] HASHES MATCH\n\nATTESTATION:\nI hereby attest that cryptographic hash verification confirms no \nmodifications were made to file metadata during the screenshot capture \nprocess. The SHA-256 hashes of all file metadata remained identical \nbefore and after the documentation process.\n\nThis verification proves that critical forensic timestamps including:\n- Created Time\n- Modified Time  \n- Viewed By Me Time (Last Opened)\n\nremained unaltered during evidence collection.\n\n" ++
    sep70 ++ "\n"
  else
    let violations := verification_result.violations.getD []
    let violation_details := joinSep "\n" (violations.map renderViolationLine)
    "\nFORENSIC INTEGRITY VIOLATION\n" ++ sep70 ++
    "\n\nVerification Timestamp: " ++ verification_result.timestamp ++
    "\nTotal Files Examined: " ++ natToString verification_result.total_files ++
    "\n\nMETADATA HASH VERIFICATION:\n  Before Hash (SHA-256): " ++
    verification_result.before_hash ++
    "\n  After Hash (SHA-256):  " ++ verification_result.after_hash ++
    "\n  \nRESULT: [FAIL] HASHES DO NOT MATCH\n\nWARNING: TIMESTAMP MODIFICATIONS DETECTED\n\nThe following files had timestamp changes:\n" ++
    violation_details ++
    "\n\nThis indicates that the documentation process may have altered \nforensic evidence. Manual review and remediation required.\n\n" ++
    sep70 ++ "\n"

/-- First-character classification of `dumpVal` output (used to show the
printer's output is prefix-unambiguous). -/
def dumpHeadSpec : Json → Char → Prop
  | .null, d => d = 'n'
  | .int _, d => d = '-' ∨ pyIsDigit d = true
  | .str _, d => d = Char.ofNat 34
  | .arr _, d => d = '['
  | .obj _, d => d = Char.ofNat 123

/-! # Supporting lemmas -/

theorem pyIn_eq_true_iff (needle : List Char) :
    ∀ hay : List Char, pyIn needle hay = true ↔ needle <:+: hay := by
  intro hay
  induction hay with
  | nil =>
    simp only [pyIn, List.isEmpty_iff]
    constructor
    · intro h; rw [h]
    · intro h; exact List.eq_nil_of_infix_nil h
  | cons c t ih =>
    simp only [pyIn, Bool.or_eq_true, ih, List.isPrefixOf_iff_prefix]
    constructor
    · rintro (h | h)
      · exact h.isInfix
      · exact h.trans (List.suffix_cons c t).isInfix
    · intro h
      rcases List.infix_cons_iff.mp h with h | h
      · exact Or.inl h
      · exact Or.inr h

/-- Helper for C8: the substring tier's exact value and bounds. -/
theorem similarity_substring_tier (q c : String)
    (hne : pyNorm q ≠ pyNorm c) (hin : pyIn (pyNorm q).data (pyNorm c).data = true) :
    calculate_similarity q c =
      0.85 + 0.15 * (((pyNorm q).length : ℚ) / ((pyNorm c).length : ℚ)) ∧
    0.85 ≤ calculate_similarity q c ∧ calculate_similarity q c ≤ 1 := by
  have heq : calculate_similarity q c =
      0.85 + 0.15 * (((pyNorm q).length : ℚ) / ((pyNorm c).length : ℚ)) := by
    unfold calculate_similarity
    rw [if_neg hne, if_pos hin]
  have hinf : (pyNorm q).data <:+: (pyNorm c).data := (pyIn_eq_true_iff _ _).mp hin
  have hlen : (pyNorm q).data.length ≤ (pyNorm c).data.length := hinf.length_le
  have hcpos : 0 < (pyNorm c).data.length := by
    rcases Nat.eq_zero_or_pos (pyNorm c).data.length with h0 | h
    · exfalso
      have hc : (pyNorm c).data = [] := List.eq_nil_of_length_eq_zero h0
      rw [hc] at hinf
      have hq : (pyNorm q).data = [] := List.eq_nil_of_infix_nil hinf
      apply hne
      cases hq' : pyNorm q with | _ d1 => ?_
      cases hc' : pyNorm c with | _ d2 => ?_
      rw [hq'] at hq; rw [hc'] at hc
      simp only at hq hc
      rw [hq, hc]
    · exact h
  refine ⟨heq, ?_, ?_⟩
  · rw [heq]
    have : (0 : ℚ) ≤ ((pyNorm q).length : ℚ) / ((pyNorm c).length : ℚ) :=
      div_nonneg (by positivity) (by positivity)
    linarith
  · rw [heq]
    have h1 : (((pyNorm q).length : ℚ)) / ((pyNorm c).length : ℚ) ≤ 1 := by
      rw [div_le_one (by exact_mod_cast hcpos)]
      exact_mod_cast hlen
    linarith

/-- C1 (amended): when strategy `indexed` is requested but no explicit index
was parsed (`requested_index = none`), `select_best_match` does NOT behave
like `ask`: it falls through every branch to the default and returns the
first match with reason "First match (default)". -/
theorem c1_indexed_without_index_returns_first (result : MatchResult) (metadata : Option (List MetaDict))
    (f0 : String) (s0 : ℚ) (t : List ScoredMatch)
    (hm : result.matches_ = (f0, s0) :: t) (hidx : result.requested_index = none) :
    select_best_match result "indexed" metadata =
      .ok (some (f0, s0, "First match (default)")) := by
  unfold select_best_match
  rw [hm, hidx]
  simp only [Option.isSome_none, Bool.false_eq_true, and_false, if_false, reduceIte]
  have h1 : ¬ (("indexed" : String) = "ask") := by decide
  have h2 : ¬ (("indexed" : String) = "first") := by decide
  have h3 : ¬ (("indexed" : String) = "newest") := by decide
  have h4 : ¬ (("indexed" : String) = "oldest") := by decide
  have h5 : ¬ (("indexed" : String) = "largest") := by decide
  rw [if_neg h1, if_neg h2]
  cases metadata with
  | none => rfl
  | some md =>
    dsimp only
    by_cases hc : (!md.isEmpty) = true ∧ md.length = (((f0, s0) : ScoredMatch) :: t).length
    · rw [if_pos hc, if_neg h3, if_neg h4, if_neg h5]
    · rw [if_neg hc]

theorem dupGroupsLoop_eq_filter_chunkRuns (d : ℚ) :
    ∀ (rest : List ScoredMatch) (prev : ScoredMatch) (cur : List ScoredMatch),
      dupGroupsLoop d prev cur rest =
        (chunkRuns d prev cur rest).filter (fun g => decide (g.length > 1)) := by
  intro rest
  induction rest with
  | nil =>
    intro prev cur
    simp only [dupGroupsLoop, chunkRuns, List.filter]
    by_cases h : cur.length > 1
    · rw [if_pos h]; simp [h]
    · rw [if_neg h]; simp [h]
  | cons m rest ih =>
    intro prev cur
    simp only [dupGroupsLoop, chunkRuns]
    by_cases h : pyAbs (prev.2 - m.2) < d
    · rw [if_pos h, if_pos h, ih]
    · rw [if_neg h, if_neg h, ih, List.filter_cons]
      by_cases h2 : cur.length > 1
      · rw [if_pos h2]; simp [h2]
      · rw [if_neg h2]; simp [h2]

/-- C4 (amended): duplicate grouping over the sorted filtered match list is
exactly `chunkRuns` followed by dropping singleton runs, where `chunkRuns`
starts a new group precisely when the score gap is `≥ 1 - duplicate_closeness`
(the source tests `gap < 1 - threshold` for staying in the group).  In
particular a gap exactly equal to `1 - duplicate_closeness` starts a NEW
group — it does not keep the two matches together. -/
theorem c4_duplicate_grouping_boundary (duplicate_threshold : ℚ) (m : ScoredMatch) (rest : List ScoredMatch) :
    detectDuplicateGroups duplicate_threshold (m :: rest) =
      (chunkRuns (1 - duplicate_threshold) m [m] rest).filter
        (fun g => decide (g.length > 1)) := by
  cases rest with
  | nil => simp [detectDuplicateGroups, chunkRuns]
  | cons y t => exact dupGroupsLoop_eq_filter_chunkRuns _ _ _ _

/-- C2 (amended): `verify_no_changes` is deterministic given the clock value
(its comparison result does not depend on the verifier object's state), but
it is NOT pure: each call appends the result — which embeds the wall-clock
timestamp — to `verification_log`, mutating the verifier. -/
theorem c2_verify_no_changes_state_and_determinism (now : String) (v v' : ForensicVerifier) (before after : Json) :
    (verify_no_changes now v before after).map Prod.fst =
      (verify_no_changes now v' before after).map Prod.fst ∧
    (verify_no_changes now v before after).map (fun p => p.2.verification_log) =
      (verify_no_changes now v before after).map
        (fun p => v.verification_log ++ [p.1]) := by
  unfold verify_no_changes
  cases verifyResultOnly now before after <;> exact ⟨rfl, rfl⟩

theorem all_takeWhile {α : Type} (p : α → Bool) (l : List α) :
    (l.takeWhile p).all p = true := by
  induction l with
  | nil => rfl
  | cons c t ih =>
    simp only [List.takeWhile]
    cases hp : p c with
    | true => simp [hp, ih]
    | false => rfl

theorem matchEnclosedSuffix_sound (oc cc : Char) (rl pre : List Char) (n : Nat)
    (h : matchEnclosedSuffix oc cc rl = some (pre, n)) :
    ∃ dsR w : List Char, dsR.all pyIsDigit = true ∧ dsR ≠ [] ∧ w.all pyIsSpace = true ∧
      rl = w ++ cc :: dsR ++ oc :: pre.reverse ∧ n = digitsVal dsR.reverse := by
  unfold matchEnclosedSuffix at h
  cases hdrop : rl.dropWhile pyIsSpace with
  | nil => rw [hdrop] at h; exact absurd h (by simp)
  | cons c r2 =>
    rw [hdrop] at h
    dsimp only at h
    by_cases hc : c = cc
    · rw [if_pos hc] at h
      by_cases hds : (r2.takeWhile pyIsDigit).isEmpty
      · rw [if_pos hds] at h; exact absurd h (by simp)
      · rw [if_neg hds] at h
        cases hrest : r2.dropWhile pyIsDigit with
        | nil => rw [hrest] at h; exact absurd h (by simp)
        | cons o pre' =>
          rw [hrest] at h
          dsimp only at h
          by_cases ho : o = oc
          · rw [if_pos ho] at h
            simp only [Option.some.injEq, Prod.mk.injEq] at h
            obtain ⟨hpre, hn⟩ := h
            refine ⟨r2.takeWhile pyIsDigit, rl.takeWhile pyIsSpace,
              all_takeWhile _ _, ?_, all_takeWhile _ _, ?_, ?_⟩
            · intro hnil; rw [hnil] at hds; exact hds rfl
            · have hr2 : r2 = r2.takeWhile pyIsDigit ++ (oc :: pre') := by
                conv_lhs => rw [← List.takeWhile_append_dropWhile pyIsDigit r2]
                rw [hrest, ho]
              have hrleq : rl =
                  rl.takeWhile pyIsSpace ++ (cc :: (r2.takeWhile pyIsDigit ++ oc :: pre')) := by
                conv_lhs => rw [← List.takeWhile_append_dropWhile pyIsSpace rl]
                rw [hdrop, hc, ← hr2]
              rw [← hpre, List.reverse_reverse]
              simpa [List.append_assoc] using hrleq
            · rw [← hn]
          · rw [if_neg ho] at h; exact absurd h (by simp)
    · rw [if_neg hc] at h; exact absurd h (by simp)

theorem matchHashSuffix_sound (rl pre : List Char) (n : Nat)
    (h : matchHashSuffix rl = some (pre, n)) :
    ∃ dsR w : List Char, dsR.all pyIsDigit = true ∧ dsR ≠ [] ∧ w.all pyIsSpace = true ∧
      rl = w ++ dsR ++ '#' :: pre.reverse ∧ n = digitsVal dsR.reverse := by
  unfold matchHashSuffix at h
  cases hdrop : rl.dropWhile pyIsSpace with
  | nil => rw [hdrop] at h; exact absurd h (by simp)
  | cons c r2 =>
    rw [hdrop] at h
    dsimp only at h
    by_cases hc : pyIsDigit c = true
    · rw [if_pos hc] at h
      cases hrest : (c :: r2).dropWhile pyIsDigit with
      | nil => rw [hrest] at h; exact absurd h (by simp)
      | cons o pre' =>
        rw [hrest] at h
        dsimp only at h
        by_cases ho : o = '#'
        · rw [if_pos ho] at h
          simp only [Option.some.injEq, Prod.mk.injEq] at h
          obtain ⟨hpre, hn⟩ := h
          refine ⟨(c :: r2).takeWhile pyIsDigit, rl.takeWhile pyIsSpace,
            all_takeWhile _ _, ?_, all_takeWhile _ _, ?_, ?_⟩
          · simp [List.takeWhile, hc]
          · have hr2 : c :: r2 = (c :: r2).takeWhile pyIsDigit ++ ('#' :: pre') := by
              conv_lhs => rw [← List.takeWhile_append_dropWhile pyIsDigit (c :: r2)]
              rw [hrest, ho]
            have hrleq : rl =
                rl.takeWhile pyIsSpace ++ ((c :: r2).takeWhile pyIsDigit ++ '#' :: pre') := by
              conv_lhs => rw [← List.takeWhile_append_dropWhile pyIsSpace rl, hdrop, hr2]
            rw [← hpre, List.reverse_reverse]
            simpa [List.append_assoc] using hrleq
          · rw [← hn]
        · rw [if_neg ho] at h; exact absurd h (by simp)
    · rw [if_neg hc] at h; exact absurd h (by simp)

/-- C9 (amended): whenever `parse_indexed_search` returns an explicit index,
the query decomposes as a prefix followed by exactly one `[n]`, `#n` or `(n)`
suffix (digits nonempty, optionally trailed by whitespace), the clean term is
that prefix stripped, and the index is the decimal value of the digits — a
natural number that MAY be 0 (e.g. `"Report [0]"`), not necessarily ≥ 1. -/
theorem c9_parse_indexed_search_suffix (s cl : String) (n : Nat)
    (h : parse_indexed_search s = (cl, some n)) :
    ∃ pre ds w : List Char,
      ds.all pyIsDigit = true ∧ ds ≠ [] ∧ w.all pyIsSpace = true ∧
      (s.data = pre ++ '[' :: (ds ++ (']' :: w)) ∨
       s.data = pre ++ '#' :: (ds ++ w) ∨
       s.data = pre ++ '(' :: (ds ++ (')' :: w))) ∧
      cl = String.mk (pyStripList pre) ∧ n = digitsVal ds := by
  unfold parse_indexed_search at h
  dsimp only at h
  cases h1 : matchEnclosedSuffix '[' ']' s.data.reverse with
  | some pm =>
    obtain ⟨p, m⟩ := pm
    rw [h1] at h
    dsimp only at h
    obtain ⟨hcl, hn⟩ := Prod.mk.injEq .. ▸ h
    obtain ⟨dsR, w, hdig, hne, hsp, hrl, hm⟩ := matchEnclosedSuffix_sound _ _ _ _ _ h1
    have hs : s.data = p ++ '[' :: (dsR.reverse ++ (']' :: w.reverse)) := by
      have h2 := congrArg List.reverse hrl
      simpa [List.append_assoc] using h2
    refine ⟨p, dsR.reverse, w.reverse, ?_, ?_, ?_, Or.inl hs, hcl.symm, ?_⟩
    · simpa using hdig
    · simpa using hne
    · simpa using hsp
    · have : m = n := Option.some.inj hn
      rw [← this, hm]
  | none =>
    rw [h1] at h
    dsimp only at h
    cases h2 : matchHashSuffix s.data.reverse with
    | some pm =>
      obtain ⟨p, m⟩ := pm
      rw [h2] at h
      dsimp only at h
      obtain ⟨hcl, hn⟩ := Prod.mk.injEq .. ▸ h
      obtain ⟨dsR, w, hdig, hne, hsp, hrl, hm⟩ := matchHashSuffix_sound _ _ _ h2
      have hs : s.data = p ++ '#' :: (dsR.reverse ++ w.reverse) := by
        have h3 := congrArg List.reverse hrl
        simpa [List.append_assoc] using h3
      refine ⟨p, dsR.reverse, w.reverse, ?_, ?_, ?_, Or.inr (Or.inl hs), hcl.symm, ?_⟩
      · simpa using hdig
      · simpa using hne
      · simpa using hsp
      · have : m = n := Option.some.inj hn
        rw [← this, hm]
    | none =>
      rw [h2] at h
      dsimp only at h
      cases h3 : matchEnclosedSuffix '(' ')' s.data.reverse with
      | some pm =>
        obtain ⟨p, m⟩ := pm
        rw [h3] at h
        dsimp only at h
        obtain ⟨hcl, hn⟩ := Prod.mk.injEq .. ▸ h
        obtain ⟨dsR, w, hdig, hne, hsp, hrl, hm⟩ := matchEnclosedSuffix_sound _ _ _ _ _ h3
        have hs : s.data = p ++ '(' :: (dsR.reverse ++ (')' :: w.reverse)) := by
          have h4 := congrArg List.reverse hrl
          simpa [List.append_assoc] using h4
        refine ⟨p, dsR.reverse, w.reverse, ?_, ?_, ?_, Or.inr (Or.inr hs), hcl.symm, ?_⟩
        · simpa using hdig
        · simpa using hne
        · simpa using hsp
        · have : m = n := Option.some.inj hn
          rw [← this, hm]
      | none =>
        rw [h3] at h
        dsimp only at h
        exact absurd (Prod.mk.injEq .. ▸ h).2 (by simp)

theorem pyIn_nil_left : ∀ hay : List Char, pyIn [] hay = true := by
  intro hay
  cases hay with
  | nil => rfl
  | cons c t => simp [pyIn, List.isPrefixOf]

theorem char_toNat_inj {a b : Char} (h : a.toNat = b.toNat) : a = b :=
  Char.ext (UInt32.toNat.inj h)

theorem toNat_ofNat_valid {n : Nat} (h : n < 55296) : (Char.ofNat n).toNat = n := by
  unfold Char.ofNat
  rw [dif_pos (Or.inl (by omega))]
  rfl

theorem pyIsSpace_iff (c : Char) :
    pyIsSpace c = true ↔
      (c.toNat = 32 ∨ c.toNat = 9 ∨ c.toNat = 10 ∨ c.toNat = 13 ∨
       c.toNat = 11 ∨ c.toNat = 12) := by
  unfold pyIsSpace
  simp only [Bool.or_eq_true, decide_eq_true_eq]
  constructor
  · rintro (((((h | h) | h) | h) | h) | h) <;> subst h <;> simp [Char.toNat]
  · rintro (h | h | h | h | h | h)
    · exact Or.inl (Or.inl (Or.inl (Or.inl (Or.inl (char_toNat_inj h)))))
    · exact Or.inl (Or.inl (Or.inl (Or.inl (Or.inr (char_toNat_inj h)))))
    · exact Or.inl (Or.inl (Or.inl (Or.inr (char_toNat_inj h))))
    · exact Or.inl (Or.inl (Or.inr (char_toNat_inj h)))
    · exact Or.inl (Or.inr (char_toNat_inj (by rw [h, toNat_ofNat_valid (by omega)])))
    · exact Or.inr (char_toNat_inj (by rw [h, toNat_ofNat_valid (by omega)]))

theorem pyIsSpace_eq_false_of (c : Char) (h : 33 ≤ c.toNat) : pyIsSpace c = false := by
  cases hb : pyIsSpace c with
  | false => rfl
  | true => have := (pyIsSpace_iff c).mp hb; omega

theorem pyIsSpace_pyLowerChar (c : Char) : pyIsSpace (pyLowerChar c) = pyIsSpace c := by
  by_cases hr : 65 ≤ c.toNat ∧ c.toNat ≤ 90
  · have e1 : pyLowerChar c = Char.ofNat (c.toNat + 32) := by
      unfold pyLowerChar; rw [if_pos hr]
    rw [e1, pyIsSpace_eq_false_of _ (by rw [toNat_ofNat_valid (by omega)]; omega),
      pyIsSpace_eq_false_of _ (by omega)]
  · unfold pyLowerChar; rw [if_neg hr]

theorem all_space_of_pyStripList_nil {l : List Char} (h : pyStripList l = []) :
    l.all pyIsSpace = true := by
  unfold pyStripList at h
  rw [List.reverse_eq_nil_iff] at h
  rw [List.dropWhile_eq_nil_iff] at h
  have hall : ∀ x ∈ l.dropWhile pyIsSpace, pyIsSpace x = true := by
    intro x hx
    exact h x (by simpa using hx)
  rw [List.all_eq_true]
  intro x hx
  conv at hx => rw [← List.takeWhile_append_dropWhile pyIsSpace l]
  rcases List.mem_append.mp hx with h1 | h2
  · have := all_takeWhile pyIsSpace l
    rw [List.all_eq_true] at this
    exact this x h1
  · exact hall x h2

theorem pyNorm_empty_all_space {q : String} (h : pyNorm q = "") :
    q.data.all pyIsSpace = true := by
  have hd : pyStripList (q.data.map pyLowerChar) = [] := congrArg String.data h
  have h2 := all_space_of_pyStripList_nil hd
  rw [List.all_map, List.all_eq_true] at h2
  rw [List.all_eq_true]
  intro x hx
  have := h2 x hx
  simpa [pyIsSpace_pyLowerChar] using this

theorem parse_all_space {q : String} (h : q.data.all pyIsSpace = true) :
    parse_indexed_search q = (q, none) := by
  have hrev : q.data.reverse.dropWhile pyIsSpace = [] := by
    rw [List.dropWhile_eq_nil_iff]
    intro x hx
    rw [List.all_eq_true] at h
    exact h x (List.mem_reverse.mp hx)
  unfold parse_indexed_search matchEnclosedSuffix matchHashSuffix
  dsimp only
  rw [hrev]

theorem insertLe_length {α : Type} (le : α → α → Bool) (x : α) :
    ∀ l : List α, (insertLe le x l).length = l.length + 1 := by
  intro l
  induction l with
  | nil => rfl
  | cons y t ih =>
    unfold insertLe
    split
    · simp only [List.length_cons, ih]
    · simp only [List.length_cons]

theorem stableSort_length {α : Type} (le : α → α → Bool) (l : List α) :
    (stableSort le l).length = l.length := by
  have key : ∀ (l acc : List α),
      (l.foldl (fun acc x => insertLe le x acc) acc).length = acc.length + l.length := by
    intro l
    induction l with
    | nil => intro acc; simp
    | cons x t ih =>
      intro acc
      simp only [List.foldl_cons, ih, insertLe_length, List.length_cons]
      omega
  unfold stableSort
  rw [key]
  simp

/-- C10 (amended): an empty or whitespace-only query scores exactly 0.85
against any candidate whose trimmed, lower-cased form is non-empty, and 1.0
against a candidate that itself normalises to empty (the exact-match tier
fires first, refuting the original "every non-empty candidate scores 0.85");
consequently with any similarity threshold ≤ 0.85 every candidate passes the
filter (`total_matches` equals the number of candidates). -/
theorem c10_empty_query_scores (q : String) (hq : pyNorm q = "") :
    (∀ c : String, pyNorm c ≠ "" → calculate_similarity q c = 0.85) ∧
    (∀ c : String, pyNorm c = "" → calculate_similarity q c = 1) ∧
    (∀ (m : EnhancedFileMatcher) (cands : List String) (max_results : Nat),
       m.similarity_threshold ≤ 0.85 →
       (find_matches_with_duplicates m q cands max_results).total_matches = cands.length) := by
  have part1 : ∀ c : String, pyNorm c ≠ "" → calculate_similarity q c = 0.85 := by
    intro c hc
    unfold calculate_similarity
    rw [if_neg (by rw [hq]; exact fun hh => hc hh.symm)]
    rw [if_pos (by rw [hq]; exact pyIn_nil_left _)]
    rw [hq]
    norm_num
  have part2 : ∀ c : String, pyNorm c = "" → calculate_similarity q c = 1 := by
    intro c hc
    unfold calculate_similarity
    rw [if_pos (by rw [hq, hc])]
  have part3 : ∀ (m : EnhancedFileMatcher) (cands : List String) (max_results : Nat),
      m.similarity_threshold ≤ 0.85 →
      (find_matches_with_duplicates m q cands max_results).total_matches = cands.length := by
    intro m cands max_results hthr
    unfold find_matches_with_duplicates
    rw [parse_all_space (pyNorm_empty_all_space hq)]
    dsimp only
    rw [stableSort_length]
    have hfil : (cands.map (fun c => (c, calculate_similarity q c))).filter
        (fun cs => decide (m.similarity_threshold ≤ cs.2)) =
        cands.map (fun c => (c, calculate_similarity q c)) := by
      rw [List.filter_eq_self]
      intro a ha
      simp only [List.mem_map] at ha
      obtain ⟨c, _, hc⟩ := ha
      subst hc
      simp only [decide_eq_true_eq]
      by_cases hcn : pyNorm c = ""
      · rw [part2 c hcn]; linarith
      · rw [part1 c hcn]; linarith
    rw [hfil, List.length_map]
  exact ⟨part1, part2, part3⟩

/-! ### Injectivity of the digest encoding -/

theorem hexDigitChar_inj : ∀ m < 16, ∀ n < 16, hexDigitChar m = hexDigitChar n → m = n := by
  decide

theorem hex4_inj {m n : Nat} (hm : m < 65536) (hn : n < 65536) (h : hex4 m = hex4 n) : m = n := by
  unfold hex4 at h
  simp only [List.cons.injEq, and_true] at h
  obtain ⟨h1, h2, h3, h4⟩ := h
  have e1 := hexDigitChar_inj _ (Nat.mod_lt _ (by omega)) _ (Nat.mod_lt _ (by omega)) h1
  have e2 := hexDigitChar_inj _ (Nat.mod_lt _ (by omega)) _ (Nat.mod_lt _ (by omega)) h2
  have e3 := hexDigitChar_inj _ (Nat.mod_lt _ (by omega)) _ (Nat.mod_lt _ (by omega)) h3
  have e4 := hexDigitChar_inj _ (Nat.mod_lt _ (by omega)) _ (Nat.mod_lt _ (by omega)) h4
  omega

theorem hex6_inj {m n : Nat} (hm : m < 16777216) (hn : n < 16777216) (h : hex6 m = hex6 n) :
    m = n := by
  unfold hex6 at h
  simp only [List.cons.injEq, and_true] at h
  obtain ⟨h1, h2, h3, h4, h5, h6⟩ := h
  have e1 := hexDigitChar_inj _ (Nat.mod_lt _ (by omega)) _ (Nat.mod_lt _ (by omega)) h1
  have e2 := hexDigitChar_inj _ (Nat.mod_lt _ (by omega)) _ (Nat.mod_lt _ (by omega)) h2
  have e3 := hexDigitChar_inj _ (Nat.mod_lt _ (by omega)) _ (Nat.mod_lt _ (by omega)) h3
  have e4 := hexDigitChar_inj _ (Nat.mod_lt _ (by omega)) _ (Nat.mod_lt _ (by omega)) h4
  have e5 := hexDigitChar_inj _ (Nat.mod_lt _ (by omega)) _ (Nat.mod_lt _ (by omega)) h5
  have e6 := hexDigitChar_inj _ (Nat.mod_lt _ (by omega)) _ (Nat.mod_lt _ (by omega)) h6
  omega

theorem char_toNat_lt (c : Char) : c.toNat < 1114112 := by
  rcases c.valid with h | h
  · exact lt_trans h (by norm_num)
  · exact h.2

theorem hex6_length (n : Nat) : (hex6 n).length = 6 := rfl

theorem flatMap_hex6_inj :
    ∀ l1 l2 : List Char,
      l1.flatMap (fun c => hex6 c.toNat) = l2.flatMap (fun c => hex6 c.toNat) → l1 = l2 := by
  intro l1
  induction l1 with
  | nil =>
    intro l2 h
    cases l2 with
    | nil => rfl
    | cons c t =>
      exfalso
      rw [List.flatMap_nil, List.flatMap_cons] at h
      have := congrArg List.length h
      simp [hex6_length] at this
      omega
  | cons c t ih =>
    intro l2 h
    cases l2 with
    | nil =>
      exfalso
      rw [List.flatMap_nil, List.flatMap_cons] at h
      have := congrArg List.length h
      simp [hex6_length] at this
    | cons c2 t2 =>
      rw [List.flatMap_cons, List.flatMap_cons] at h
      obtain ⟨hb, ht⟩ := List.append_inj h (by rw [hex6_length, hex6_length])
      have hc : c = c2 := char_toNat_inj (hex6_inj
        (lt_trans (char_toNat_lt c) (by norm_num))
        (lt_trans (char_toNat_lt c2) (by norm_num)) hb)
      rw [hc, ih t2 ht]

theorem sha256Hex_inj {s1 s2 : String} (h : sha256Hex s1 = sha256Hex s2) : s1 = s2 := by
  unfold sha256Hex at h
  have hd : s1.data = s2.data := flatMap_hex6_inj _ _ (congrArg String.data h)
  cases s1; cases s2; exact congrArg String.mk hd

/-! ### Unambiguity of the JSON string escaping -/

theorem escChar_classify (c : Char) :
    (escChar c = [c] ∧ 32 ≤ c.toNat ∧ c.toNat ≤ 126 ∧ c ≠ Char.ofNat 34 ∧ c ≠ Char.ofNat 92) ∨
    (∃ e, escChar c = [Char.ofNat 92, e] ∧ e ≠ 'u' ∧
        ((e = Char.ofNat 34 ∧ c = Char.ofNat 34) ∨ (e = Char.ofNat 92 ∧ c = Char.ofNat 92) ∨
         (e = 'b' ∧ c = Char.ofNat 8) ∨ (e = 'f' ∧ c = Char.ofNat 12) ∨
         (e = 'n' ∧ c = '\n') ∨ (e = 'r' ∧ c = '\r') ∨ (e = 't' ∧ c = '\t'))) ∨
    (escChar c = Char.ofNat 92 :: 'u' :: hex4 c.toNat ∧ c.toNat < 65536 ∧
      (c.toNat < 55296 ∨ 57343 < c.toNat)) ∨
    (∃ v, c.toNat = 65536 + v ∧ v < 1048576 ∧
      escChar c = Char.ofNat 92 :: 'u' :: hex4 (55296 + v / 1024) ++
        Char.ofNat 92 :: 'u' :: hex4 (56320 + v % 1024)) := by
  by_cases h1 : c = Char.ofNat 34
  · exact Or.inr (Or.inl ⟨Char.ofNat 34, by unfold escChar; rw [if_pos h1], by decide,
      Or.inl ⟨rfl, h1⟩⟩)
  by_cases h2 : c = Char.ofNat 92
  · exact Or.inr (Or.inl ⟨Char.ofNat 92, by unfold escChar; rw [if_neg h1, if_pos h2], by decide,
      Or.inr (Or.inl ⟨rfl, h2⟩)⟩)
  by_cases h3 : c = Char.ofNat 8
  · exact Or.inr (Or.inl ⟨'b', by unfold escChar; rw [if_neg h1, if_neg h2, if_pos h3], by decide,
      Or.inr (Or.inr (Or.inl ⟨rfl, h3⟩))⟩)
  by_cases h4 : c = Char.ofNat 12
  · exact Or.inr (Or.inl ⟨'f',
      by unfold escChar; rw [if_neg h1, if_neg h2, if_neg h3, if_pos h4], by decide,
      Or.inr (Or.inr (Or.inr (Or.inl ⟨rfl, h4⟩)))⟩)
  by_cases h5 : c = '\n'
  · exact Or.inr (Or.inl ⟨'n',
      by unfold escChar; rw [if_neg h1, if_neg h2, if_neg h3, if_neg h4, if_pos h5], by decide,
      Or.inr (Or.inr (Or.inr (Or.inr (Or.inl ⟨rfl, h5⟩))))⟩)
  by_cases h6 : c = '\r'
  · exact Or.inr (Or.inl ⟨'r',
      by unfold escChar; rw [if_neg h1, if_neg h2, if_neg h3, if_neg h4, if_neg h5, if_pos h6],
      by decide, Or.inr (Or.inr (Or.inr (Or.inr (Or.inr (Or.inl ⟨rfl, h6⟩)))))⟩)
  by_cases h7 : c = '\t'
  · exact Or.inr (Or.inl ⟨'t',
      by unfold escChar;
         rw [if_neg h1, if_neg h2, if_neg h3, if_neg h4, if_neg h5, if_neg h6, if_pos h7],
      by decide, Or.inr (Or.inr (Or.inr (Or.inr (Or.inr (Or.inr ⟨rfl, h7⟩)))))⟩)
  by_cases h8 : 32 ≤ c.toNat ∧ c.toNat ≤ 126
  · exact Or.inl ⟨by
      unfold escChar
      rw [if_neg h1, if_neg h2, if_neg h3, if_neg h4, if_neg h5, if_neg h6, if_neg h7, if_pos h8],
      h8.1, h8.2, h1, h2⟩
  by_cases h9 : c.toNat < 65536
  · refine Or.inr (Or.inr (Or.inl ⟨by
      unfold escChar
      rw [if_neg h1, if_neg h2, if_neg h3, if_neg h4, if_neg h5, if_neg h6, if_neg h7, if_neg h8,
        if_pos h9], h9, ?_⟩))
    rcases c.valid with hv | hv
    · exact Or.inl hv
    · exact Or.inr hv.1
  · refine Or.inr (Or.inr (Or.inr ⟨c.toNat - 65536, by omega, by
      have := char_toNat_lt c
      omega, by
      unfold escChar
      rw [if_neg h1, if_neg h2, if_neg h3, if_neg h4, if_neg h5, if_neg h6, if_neg h7, if_neg h8,
        if_neg h9]⟩))

theorem hex4_length (n : Nat) : (hex4 n).length = 4 := rfl

theorem escChar_append_inj (c1 c2 : Char) (u1 u2 : List Char)
    (h : escChar c1 ++ u1 = escChar c2 ++ u2) : c1 = c2 ∧ u1 = u2 := by
  rcases escChar_classify c1 with ⟨e1, -, -, -, hq1⟩ | ⟨e, e1, heu, htab⟩ |
    ⟨e1, hb, hs⟩ | ⟨v, hv, hvb, e1⟩ <;>
    rcases escChar_classify c2 with ⟨f1, -, -, -, hq2⟩ | ⟨f, f1, hfu, htab2⟩ |
      ⟨f1, hb2, hs2⟩ | ⟨w, hw, hwb, f1⟩ <;>
    rw [e1, f1] at h
  · -- literal / literal
    simp only [List.singleton_append, List.cons.injEq] at h
    exact ⟨h.1, h.2⟩
  · -- literal / short escape
    exfalso
    simp only [List.singleton_append, List.cons_append, List.cons.injEq] at h
    exact hq1 h.1
  · -- literal / \uXXXX
    exfalso
    simp only [List.singleton_append, List.cons_append, List.cons.injEq] at h
    exact hq1 h.1
  · -- literal / surrogate pair
    exfalso
    simp only [List.singleton_append, List.cons_append, List.append_assoc,
      List.cons.injEq] at h
    exact hq1 h.1
  · -- short escape / literal
    exfalso
    simp only [List.singleton_append, List.cons_append, List.cons.injEq] at h
    exact hq2 h.1.symm
  · -- short escape / short escape
    simp only [List.cons_append, List.nil_append, List.cons.injEq] at h
    obtain ⟨-, hef, hu⟩ := h
    rcases htab with ⟨he, hc⟩ | ⟨he, hc⟩ | ⟨he, hc⟩ | ⟨he, hc⟩ | ⟨he, hc⟩ | ⟨he, hc⟩ | ⟨he, hc⟩ <;>
      rcases htab2 with ⟨hf, hc2⟩ | ⟨hf, hc2⟩ | ⟨hf, hc2⟩ | ⟨hf, hc2⟩ | ⟨hf, hc2⟩ |
        ⟨hf, hc2⟩ | ⟨hf, hc2⟩ <;>
      rw [he, hf] at hef <;>
      first
        | exact ⟨hc.trans hc2.symm, hu⟩
        | exact absurd hef (by decide)
  · -- short escape / \uXXXX
    exfalso
    simp only [List.cons_append, List.nil_append, List.cons.injEq] at h
    exact heu h.2.1
  · -- short escape / surrogate pair
    exfalso
    simp only [List.cons_append, List.nil_append, List.append_assoc, List.cons.injEq] at h
    exact heu h.2.1
  · -- \uXXXX / literal
    exfalso
    simp only [List.singleton_append, List.cons_append, List.cons.injEq] at h
    exact hq2 h.1.symm
  · -- \uXXXX / short escape
    exfalso
    simp only [List.cons_append, List.nil_append, List.cons.injEq] at h
    exact hfu h.2.1.symm
  · -- \uXXXX / \uXXXX
    simp only [List.cons_append, List.cons.injEq] at h
    obtain ⟨-, -, hh⟩ := h
    obtain ⟨h4, hu⟩ := List.append_inj hh (by rw [hex4_length, hex4_length])
    exact ⟨char_toNat_inj (hex4_inj hb hb2 h4), hu⟩
  · -- \uXXXX / surrogate pair
    exfalso
    simp only [List.cons_append, List.append_assoc, List.cons.injEq] at h
    obtain ⟨-, -, hh⟩ := h
    obtain ⟨h4, -⟩ := List.append_inj hh (by rw [hex4_length, hex4_length])
    have := hex4_inj hb (by omega) h4
    omega
  · -- surrogate pair / literal
    exfalso
    simp only [List.singleton_append, List.cons_append, List.append_assoc,
      List.cons.injEq] at h
    exact hq2 h.1.symm
  · -- surrogate pair / short escape
    exfalso
    simp only [List.cons_append, List.nil_append, List.append_assoc, List.cons.injEq] at h
    exact hfu h.2.1.symm
  · -- surrogate pair / \uXXXX
    exfalso
    simp only [List.cons_append, List.append_assoc, List.cons.injEq] at h
    obtain ⟨-, -, hh⟩ := h
    obtain ⟨h4, -⟩ := List.append_inj hh (by rw [hex4_length, hex4_length])
    have := hex4_inj (by omega) hb2 h4
    omega
  · -- surrogate pair / surrogate pair
    simp only [List.cons_append, List.append_assoc, List.cons.injEq] at h
    obtain ⟨-, -, hh⟩ := h
    obtain ⟨h4, hrest⟩ := List.append_inj hh (by rw [hex4_length, hex4_length])
    have hhi := hex4_inj (by omega) (by omega) h4
    simp only [List.cons_append, List.cons.injEq] at hrest
    obtain ⟨-, -, hh2⟩ := hrest
    obtain ⟨h4b, hu⟩ := List.append_inj hh2 (by rw [hex4_length, hex4_length])
    have hlo := hex4_inj (by omega) (by omega) h4b
    have hvw : v = w := by omega
    refine ⟨char_toNat_inj ?_, hu⟩
    rw [hv, hw, hvw]

theorem escChar_head_ne_quote (c : Char) :
    ∃ d t, escChar c = d :: t ∧ d ≠ Char.ofNat 34 := by
  rcases escChar_classify c with ⟨e1, -, -, hq, -⟩ | ⟨e, e1, -, -⟩ | ⟨e1, -, -⟩ | ⟨v, -, -, e1⟩
  · exact ⟨c, [], e1, hq⟩
  · exact ⟨Char.ofNat 92, [e], e1, by decide⟩
  · exact ⟨Char.ofNat 92, 'u' :: hex4 c.toNat, e1, by decide⟩
  · exact ⟨Char.ofNat 92,
      'u' :: hex4 (55296 + v / 1024) ++ Char.ofNat 92 :: 'u' :: hex4 (56320 + v % 1024),
      by rw [e1]; rfl, by decide⟩

theorem escBody_append_inj : ∀ l1 l2 r1 r2 : List Char,
    l1.flatMap escChar ++ (Char.ofNat 34 :: r1) =
      l2.flatMap escChar ++ (Char.ofNat 34 :: r2) →
    l1 = l2 ∧ r1 = r2 := by
  intro l1
  induction l1 with
  | nil =>
    intro l2 r1 r2 h
    cases l2 with
    | nil => simp_all
    | cons c t =>
      exfalso
      rw [List.flatMap_nil, List.nil_append, List.flatMap_cons] at h
      obtain ⟨d, dt, hd, hdq⟩ := escChar_head_ne_quote c
      rw [hd] at h
      simp only [List.cons_append, List.append_assoc, List.cons.injEq] at h
      exact hdq h.1.symm
  | cons c t ih =>
    intro l2 r1 r2 h
    cases l2 with
    | nil =>
      exfalso
      rw [List.flatMap_nil, List.nil_append, List.flatMap_cons] at h
      obtain ⟨d, dt, hd, hdq⟩ := escChar_head_ne_quote c
      rw [hd] at h
      simp only [List.cons_append, List.append_assoc, List.cons.injEq] at h
      exact hdq h.1
    | cons c2 t2 =>
      rw [List.flatMap_cons, List.flatMap_cons, List.append_assoc, List.append_assoc] at h
      obtain ⟨hc, hrest⟩ := escChar_append_inj c c2 _ _ h
      obtain ⟨ht, hr⟩ := ih t2 r1 r2 hrest
      exact ⟨by rw [hc, ht], hr⟩

theorem dumpStr_append_inj (s1 s2 : String) (r1 r2 : List Char)
    (h : dumpStr s1 ++ r1 = dumpStr s2 ++ r2) : s1 = s2 ∧ r1 = r2 := by
  unfold dumpStr at h
  simp only [List.cons_append, List.append_assoc, List.singleton_append,
    List.cons.injEq] at h
  obtain ⟨-, hh⟩ := h
  obtain ⟨hd, hr⟩ := escBody_append_inj _ _ _ _ hh
  exact ⟨by cases s1; cases s2; exact congrArg String.mk hd, hr⟩

/-! ### Unambiguity of the decimal integer rendering -/

theorem natCharsAux_eq (n : Nat) : ∀ acc, natCharsAux n acc = natChars n ++ acc := by
  induction n using Nat.strong_induction_on with
  | _ n ih =>
    intro acc
    by_cases h : n < 10
    · unfold natChars natCharsAux
      rw [dif_pos h, dif_pos h]
      rfl
    · have hrec := ih (n / 10) (Nat.div_lt_self (by omega) (by omega))
      unfold natChars
      conv_lhs => unfold natCharsAux
      conv_rhs => unfold natCharsAux
      rw [dif_neg h, dif_neg h]
      rw [hrec, hrec]
      simp [List.append_assoc]

theorem natChars_decomp (n : Nat) (h : ¬ n < 10) :
    natChars n = natChars (n / 10) ++ [Char.ofNat (48 + n % 10)] := by
  unfold natChars
  conv_lhs => unfold natCharsAux
  rw [dif_neg h, natCharsAux_eq]
  rfl

theorem natChars_lt10 (n : Nat) (h : n < 10) : natChars n = [Char.ofNat (48 + n)] := by
  unfold natChars natCharsAux
  rw [dif_pos h]

theorem natChars_ne_nil (n : Nat) : natChars n ≠ [] := by
  induction n using Nat.strong_induction_on with
  | _ n ih =>
    by_cases h : n < 10
    · rw [natChars_lt10 n h]; simp
    · rw [natChars_decomp n h]; simp

theorem natChars_all_digits (n : Nat) : (natChars n).all pyIsDigit = true := by
  induction n using Nat.strong_induction_on with
  | _ n ih =>
    by_cases h : n < 10
    · rw [natChars_lt10 n h]
      simp only [List.all_cons, List.all_nil, Bool.and_true]
      unfold pyIsDigit
      rw [toNat_ofNat_valid (by omega)]
      simp; omega
    · rw [natChars_decomp n h]
      rw [List.all_append]
      rw [ih (n / 10) (Nat.div_lt_self (by omega) (by omega))]
      simp only [Bool.true_and, List.all_cons, List.all_nil, Bool.and_true]
      unfold pyIsDigit
      rw [toNat_ofNat_valid (by omega)]
      simp
      omega

theorem digitChar_inj : ∀ a < 10, ∀ b < 10,
    Char.ofNat (48 + a) = Char.ofNat (48 + b) → a = b := by
  decide

theorem natChars_inj : ∀ m n : Nat, natChars m = natChars n → m = n := by
  intro m
  induction m using Nat.strong_induction_on with
  | _ m ih =>
    intro n h
    by_cases hm : m < 10 <;> by_cases hn : n < 10
    · rw [natChars_lt10 m hm, natChars_lt10 n hn] at h
      exact digitChar_inj m hm n hn (List.cons.inj h).1
    · exfalso
      rw [natChars_lt10 m hm, natChars_decomp n hn] at h
      have hlen := congrArg List.length h
      simp only [List.length_cons, List.length_nil, List.length_append] at hlen
      have := natChars_ne_nil (n / 10)
      cases hcc : natChars (n / 10) with
      | nil => exact this hcc
      | cons a b => rw [hcc] at hlen; simp at hlen
    · exfalso
      rw [natChars_lt10 n hn, natChars_decomp m hm] at h
      have hlen := congrArg List.length h
      simp only [List.length_cons, List.length_nil, List.length_append] at hlen
      have := natChars_ne_nil (m / 10)
      cases hcc : natChars (m / 10) with
      | nil => exact this hcc
      | cons a b => rw [hcc] at hlen; simp at hlen
    · rw [natChars_decomp m hm, natChars_decomp n hn] at h
      obtain ⟨h1, h2⟩ := List.append_inj' h rfl
      have e1 := ih (m / 10) (Nat.div_lt_self (by omega) (by omega)) (n / 10) h1
      have e2 := digitChar_inj (m % 10) (by omega) (n % 10) (by omega) (List.cons.inj h2).1
      omega

theorem digit_run_append_inj :
    ∀ a1 a2 r1 r2 : List Char, a1.all pyIsDigit = true → a2.all pyIsDigit = true →
      (∀ c t, r1 = c :: t → pyIsDigit c = false) →
      (∀ c t, r2 = c :: t → pyIsDigit c = false) →
      a1 ++ r1 = a2 ++ r2 → a1 = a2 ∧ r1 = r2 := by
  intro a1
  induction a1 with
  | nil =>
    intro a2 r1 r2 _ hd2 hn1 _ h
    cases a2 with
    | nil => simpa using h
    | cons c t =>
      exfalso
      rw [List.nil_append, List.cons_append] at h
      have hdig : pyIsDigit c = true := by
        rw [List.all_cons] at hd2
        exact (Bool.and_eq_true_iff.mp hd2).1
      have := hn1 c (t ++ r2) h
      rw [this] at hdig
      exact Bool.false_ne_true hdig
  | cons c t ih =>
    intro a2 r1 r2 hd1 hd2 hn1 hn2 h
    cases a2 with
    | nil =>
      exfalso
      rw [List.nil_append, List.cons_append] at h
      have hdig : pyIsDigit c = true := by
        rw [List.all_cons] at hd1
        exact (Bool.and_eq_true_iff.mp hd1).1
      have := hn2 c (t ++ r1) h.symm
      rw [this] at hdig
      exact Bool.false_ne_true hdig
    | cons c2 t2 =>
      rw [List.cons_append, List.cons_append] at h
      obtain ⟨hc, hrest⟩ := List.cons.inj h
      rw [List.all_cons] at hd1 hd2
      obtain ⟨ht, hr⟩ := ih t2 r1 r2 (Bool.and_eq_true_iff.mp hd1).2
        (Bool.and_eq_true_iff.mp hd2).2 hn1 hn2 hrest
      exact ⟨by rw [hc, ht], hr⟩

theorem intChars_head (n : Int) :
    ∃ d t, intChars n = d :: t ∧ (d = '-' ∨ pyIsDigit d = true) := by
  unfold intChars
  split
  · exact ⟨'-', natChars (-n).toNat, rfl, Or.inl rfl⟩
  · cases hc : natChars n.toNat with
    | nil => exact absurd hc (natChars_ne_nil _)
    | cons d t =>
      refine ⟨d, t, rfl, Or.inr ?_⟩
      have := natChars_all_digits n.toNat
      rw [hc, List.all_cons] at this
      exact (Bool.and_eq_true_iff.mp this).1

theorem intChars_append_inj (n1 n2 : Int) (r1 r2 : List Char)
    (hn1 : ∀ c t, r1 = c :: t → pyIsDigit c = false)
    (hn2 : ∀ c t, r2 = c :: t → pyIsDigit c = false)
    (h : intChars n1 ++ r1 = intChars n2 ++ r2) : n1 = n2 ∧ r1 = r2 := by
  unfold intChars at h
  by_cases hs1 : n1 < 0 <;> by_cases hs2 : n2 < 0
  · rw [if_pos hs1, if_pos hs2, List.cons_append, List.cons_append] at h
    have hrest := (List.cons.inj h).2
    obtain ⟨ha, hr⟩ := digit_run_append_inj _ _ _ _ (natChars_all_digits _)
      (natChars_all_digits _) hn1 hn2 hrest
    have := natChars_inj _ _ ha
    constructor
    · omega
    · exact hr
  · exfalso
    rw [if_pos hs1, if_neg hs2, List.cons_append] at h
    obtain ⟨d, t, hd, hcl⟩ := intChars_head n2
    unfold intChars at hd
    rw [if_neg hs2] at hd
    rw [hd, List.cons_append] at h
    have hdm : d = '-' := (List.cons.inj h).1.symm
    rcases hcl with he | he
    · -- natChars head is a digit, never '-'
      have := natChars_all_digits n2.toNat
      rw [hd, List.all_cons] at this
      have hdig := (Bool.and_eq_true_iff.mp this).1
      rw [hdm] at hdig
      exact absurd hdig (by decide)
    · rw [hdm] at he
      exact absurd he (by decide)
  · exfalso
    rw [if_neg hs1, if_pos hs2, List.cons_append] at h
    obtain ⟨d, t, hd, hcl⟩ := intChars_head n1
    unfold intChars at hd
    rw [if_neg hs1] at hd
    rw [hd, List.cons_append] at h
    have hdm : d = '-' := (List.cons.inj h).1
    have := natChars_all_digits n1.toNat
    rw [hd, List.all_cons] at this
    have hdig := (Bool.and_eq_true_iff.mp this).1
    rw [hdm] at hdig
    exact absurd hdig (by decide)
  · rw [if_neg hs1, if_neg hs2] at h
    obtain ⟨ha, hr⟩ := digit_run_append_inj _ _ _ _ (natChars_all_digits _)
      (natChars_all_digits _) hn1 hn2 h
    have := natChars_inj _ _ ha
    constructor
    · omega
    · exact hr

/-! ### Prefix-injectivity of the JSON printer -/

theorem dumpVal_head_class (v : Json) :
    ∃ d t, dumpVal v = d :: t ∧ dumpHeadSpec v d := by
  cases v with
  | null => exact ⟨'n', ['u', 'l', 'l'], rfl, rfl⟩
  | int n =>
    obtain ⟨d, t, hd, hc⟩ := intChars_head n
    exact ⟨d, t, hd, hc⟩
  | str s => exact ⟨Char.ofNat 34, s.data.flatMap escChar ++ [Char.ofNat 34], rfl, rfl⟩
  | arr xs => exact ⟨'[', dumpArr xs ++ [']'], rfl, rfl⟩
  | obj kvs => exact ⟨Char.ofNat 123, dumpObjItems kvs ++ [Char.ofNat 125], rfl, rfl⟩

theorem noDigitHead_cons (c0 : Char) (h : pyIsDigit c0 = false) (r : List Char) :
    ∀ c t, c0 :: r = c :: t → pyIsDigit c = false := by
  intro c t hct
  rw [← (List.cons.inj hct).1]
  exact h

theorem json_sizeOf_pos (v : Json) : 1 ≤ sizeOf v := by
  cases v <;> simp_arith

theorem dumpArr_cons_decomp (x : Json) (t : List Json) :
    ∃ s, dumpArr (x :: t) = dumpVal x ++ s := by
  cases t with
  | nil => exact ⟨[], by simp [dumpArr]⟩
  | cons y t2 => exact ⟨',' :: ' ' :: dumpArr (y :: t2), rfl⟩

theorem dumpObjItems_cons_decomp (k : String) (v : Json) (t : List (String × Json)) :
    ∃ s, dumpObjItems ((k, v) :: t) = dumpStr k ++ (':' :: ' ' :: dumpVal v ++ s) := by
  cases t with
  | nil => exact ⟨[], by simp [dumpObjItems]⟩
  | cons p t2 => exact ⟨',' :: ' ' :: dumpObjItems (p :: t2), by cases p; simp [dumpObjItems]⟩

theorem dump_head_eq {v1 v2 : Json} {r1 r2 : List Char}
    (h : dumpVal v1 ++ r1 = dumpVal v2 ++ r2) :
    ∃ d, dumpHeadSpec v1 d ∧ dumpHeadSpec v2 d := by
  obtain ⟨d1, t1, hd1, hs1⟩ := dumpVal_head_class v1
  obtain ⟨d2, t2, hd2, hs2⟩ := dumpVal_head_class v2
  rw [hd1, hd2, List.cons_append, List.cons_append] at h
  exact ⟨d1, hs1, (List.cons.inj h).1 ▸ hs2⟩

theorem dump_prefix_inj_all : ∀ N : Nat,
    (∀ v1 : Json, sizeOf v1 ≤ N → ∀ v2 r1 r2,
      (∀ c t, r1 = c :: t → pyIsDigit c = false) →
      (∀ c t, r2 = c :: t → pyIsDigit c = false) →
      dumpVal v1 ++ r1 = dumpVal v2 ++ r2 → v1 = v2 ∧ r1 = r2) ∧
    (∀ l1 : List Json, sizeOf l1 ≤ N → ∀ l2 r1 r2,
      dumpArr l1 ++ (']' :: r1) = dumpArr l2 ++ (']' :: r2) → l1 = l2 ∧ r1 = r2) ∧
    (∀ kl1 : List (String × Json), sizeOf kl1 ≤ N → ∀ kl2 r1 r2,
      dumpObjItems kl1 ++ (Char.ofNat 125 :: r1) =
        dumpObjItems kl2 ++ (Char.ofNat 125 :: r2) → kl1 = kl2 ∧ r1 = r2) := by
  intro N
  induction N using Nat.strong_induction_on with
  | _ N ih =>
    refine ⟨?_, ?_, ?_⟩
    · intro v1 hv1 v2 r1 r2 hr1 hr2 h
      cases v1 with
      | null =>
        cases v2 with
        | null =>
          exact ⟨rfl, (List.append_inj h rfl).2⟩
        | int n2 =>
          exfalso
          obtain ⟨d, hA, hB⟩ := dump_head_eq h
          simp only [dumpHeadSpec] at hA hB
          first
          | (subst hA; exact absurd hB (by decide))
          | (subst hB; exact absurd hA (by decide))
        | str s2 =>
          exfalso
          obtain ⟨d, hA, hB⟩ := dump_head_eq h
          simp only [dumpHeadSpec] at hA hB
          first
          | (subst hA; exact absurd hB (by decide))
          | (subst hB; exact absurd hA (by decide))
        | arr xs2 =>
          exfalso
          obtain ⟨d, hA, hB⟩ := dump_head_eq h
          simp only [dumpHeadSpec] at hA hB
          first
          | (subst hA; exact absurd hB (by decide))
          | (subst hB; exact absurd hA (by decide))
        | obj kl2x =>
          exfalso
          obtain ⟨d, hA, hB⟩ := dump_head_eq h
          simp only [dumpHeadSpec] at hA hB
          first
          | (subst hA; exact absurd hB (by decide))
          | (subst hB; exact absurd hA (by decide))
      | int n1 =>
        cases v2 with
        | null =>
          exfalso
          obtain ⟨d, hA, hB⟩ := dump_head_eq h
          simp only [dumpHeadSpec] at hA hB
          first
          | (subst hA; exact absurd hB (by decide))
          | (subst hB; exact absurd hA (by decide))
        | int n2 =>
          obtain ⟨he, hr⟩ := intChars_append_inj n1 n2 r1 r2 hr1 hr2 h
          exact ⟨by rw [he], hr⟩
        | str s2 =>
          exfalso
          obtain ⟨d, hA, hB⟩ := dump_head_eq h
          simp only [dumpHeadSpec] at hA hB
          first
          | (subst hA; exact absurd hB (by decide))
          | (subst hB; exact absurd hA (by decide))
        | arr xs2 =>
          exfalso
          obtain ⟨d, hA, hB⟩ := dump_head_eq h
          simp only [dumpHeadSpec] at hA hB
          first
          | (subst hA; exact absurd hB (by decide))
          | (subst hB; exact absurd hA (by decide))
        | obj kl2x =>
          exfalso
          obtain ⟨d, hA, hB⟩ := dump_head_eq h
          simp only [dumpHeadSpec] at hA hB
          first
          | (subst hA; exact absurd hB (by decide))
          | (subst hB; exact absurd hA (by decide))
      | str s1 =>
        cases v2 with
        | null =>
          exfalso
          obtain ⟨d, hA, hB⟩ := dump_head_eq h
          simp only [dumpHeadSpec] at hA hB
          first
          | (subst hA; exact absurd hB (by decide))
          | (subst hB; exact absurd hA (by decide))
        | int n2 =>
          exfalso
          obtain ⟨d, hA, hB⟩ := dump_head_eq h
          simp only [dumpHeadSpec] at hA hB
          first
          | (subst hA; exact absurd hB (by decide))
          | (subst hB; exact absurd hA (by decide))
        | str s2 =>
          obtain ⟨he, hr⟩ := dumpStr_append_inj s1 s2 r1 r2 h
          exact ⟨by rw [he], hr⟩
        | arr xs2 =>
          exfalso
          obtain ⟨d, hA, hB⟩ := dump_head_eq h
          simp only [dumpHeadSpec] at hA hB
          first
          | (subst hA; exact absurd hB (by decide))
          | (subst hB; exact absurd hA (by decide))
        | obj kl2x =>
          exfalso
          obtain ⟨d, hA, hB⟩ := dump_head_eq h
          simp only [dumpHeadSpec] at hA hB
          first
          | (subst hA; exact absurd hB (by decide))
          | (subst hB; exact absurd hA (by decide))
      | arr xs1 =>
        cases v2 with
        | null =>
          exfalso
          obtain ⟨d, hA, hB⟩ := dump_head_eq h
          simp only [dumpHeadSpec] at hA hB
          first
          | (subst hA; exact absurd hB (by decide))
          | (subst hB; exact absurd hA (by decide))
        | int n2 =>
          exfalso
          obtain ⟨d, hA, hB⟩ := dump_head_eq h
          simp only [dumpHeadSpec] at hA hB
          first
          | (subst hA; exact absurd hB (by decide))
          | (subst hB; exact absurd hA (by decide))
        | str s2 =>
          exfalso
          obtain ⟨d, hA, hB⟩ := dump_head_eq h
          simp only [dumpHeadSpec] at hA hB
          first
          | (subst hA; exact absurd hB (by decide))
          | (subst hB; exact absurd hA (by decide))
        | arr xs2 =>
          have hN1 : 1 ≤ N := le_trans (json_sizeOf_pos _) hv1
          have hsz : sizeOf xs1 ≤ N - 1 := by
            have hspec : sizeOf (Json.arr xs1) = 1 + sizeOf xs1 := by simp_arith
            omega
          have h2 : dumpArr xs1 ++ (']' :: r1) = dumpArr xs2 ++ (']' :: r2) := by
            have h3 : ('[' :: (dumpArr xs1 ++ (']' :: r1)) : List Char) =
                '[' :: (dumpArr xs2 ++ (']' :: r2)) := by
              simpa only [dumpVal, List.cons_append, List.append_assoc,
                List.singleton_append] using h
            exact (List.cons.inj h3).2
          obtain ⟨hl, hr⟩ := (ih (N - 1) (by omega)).2.1 xs1 hsz xs2 r1 r2 h2
          exact ⟨by rw [hl], hr⟩
        | obj kl2x =>
          exfalso
          obtain ⟨d, hA, hB⟩ := dump_head_eq h
          simp only [dumpHeadSpec] at hA hB
          first
          | (subst hA; exact absurd hB (by decide))
          | (subst hB; exact absurd hA (by decide))
      | obj kl1x =>
        cases v2 with
        | null =>
          exfalso
          obtain ⟨d, hA, hB⟩ := dump_head_eq h
          simp only [dumpHeadSpec] at hA hB
          first
          | (subst hA; exact absurd hB (by decide))
          | (subst hB; exact absurd hA (by decide))
        | int n2 =>
          exfalso
          obtain ⟨d, hA, hB⟩ := dump_head_eq h
          simp only [dumpHeadSpec] at hA hB
          first
          | (subst hA; exact absurd hB (by decide))
          | (subst hB; exact absurd hA (by decide))
        | str s2 =>
          exfalso
          obtain ⟨d, hA, hB⟩ := dump_head_eq h
          simp only [dumpHeadSpec] at hA hB
          first
          | (subst hA; exact absurd hB (by decide))
          | (subst hB; exact absurd hA (by decide))
        | arr xs2 =>
          exfalso
          obtain ⟨d, hA, hB⟩ := dump_head_eq h
          simp only [dumpHeadSpec] at hA hB
          first
          | (subst hA; exact absurd hB (by decide))
          | (subst hB; exact absurd hA (by decide))
        | obj kl2x =>
          have hN1 : 1 ≤ N := le_trans (json_sizeOf_pos _) hv1
          have hsz : sizeOf kl1x ≤ N - 1 := by
            have hspec : sizeOf (Json.obj kl1x) = 1 + sizeOf kl1x := by simp_arith
            omega
          have h2 : dumpObjItems kl1x ++ (Char.ofNat 125 :: r1) =
              dumpObjItems kl2x ++ (Char.ofNat 125 :: r2) := by
            have h3 : (Char.ofNat 123 :: (dumpObjItems kl1x ++ (Char.ofNat 125 :: r1)) : List Char) =
                Char.ofNat 123 :: (dumpObjItems kl2x ++ (Char.ofNat 125 :: r2)) := by
              simpa only [dumpVal, List.cons_append, List.append_assoc,
                List.singleton_append] using h
            exact (List.cons.inj h3).2
          obtain ⟨hl, hr⟩ := (ih (N - 1) (by omega)).2.2 kl1x hsz kl2x r1 r2 h2
          exact ⟨by rw [hl], hr⟩
    · intro l1 hl1 l2 r1 r2 h
      cases l1 with
      | nil =>
        cases l2 with
        | nil =>
          refine ⟨rfl, ?_⟩
          simp only [dumpArr, List.nil_append, List.cons.injEq] at h
          exact h.2
        | cons x2 t2 =>
          exfalso
          obtain ⟨s2, hs2⟩ := dumpArr_cons_decomp x2 t2
          obtain ⟨d, td, hd, hclass⟩ := dumpVal_head_class x2
          rw [hs2, hd] at h
          simp only [dumpArr, List.nil_append, List.cons_append, List.append_assoc,
            List.cons.injEq] at h
          have hdj : d = ']' := h.1.symm
          cases x2 <;> simp only [dumpHeadSpec] at hclass <;> rw [hdj] at hclass <;>
            exact absurd hclass (by decide)
      | cons x1 t1 =>
        cases l2 with
        | nil =>
          exfalso
          obtain ⟨s1, hs1⟩ := dumpArr_cons_decomp x1 t1
          obtain ⟨d, td, hd, hclass⟩ := dumpVal_head_class x1
          rw [hs1, hd] at h
          simp only [dumpArr, List.nil_append, List.cons_append, List.append_assoc,
            List.cons.injEq] at h
          have hdj : d = ']' := h.1
          cases x1 <;> simp only [dumpHeadSpec] at hclass <;> rw [hdj] at hclass <;>
            exact absurd hclass (by decide)
        | cons x2 t2 =>
          have hcs : sizeOf (x1 :: t1) = 1 + sizeOf x1 + sizeOf t1 := by simp_arith
          have hN1 : 1 ≤ N := le_trans (by omega) hl1
          have hszx : sizeOf x1 ≤ N - 1 := by omega
          have hszt : sizeOf t1 ≤ N - 1 := by omega
          cases t1 with
          | nil =>
            cases t2 with
            | nil =>
              have h2 : dumpVal x1 ++ (']' :: r1) = dumpVal x2 ++ (']' :: r2) := by
                simpa only [dumpArr] using h
              obtain ⟨hx, hr⟩ := (ih (N - 1) (by omega)).1 x1 hszx x2 _ _
                (noDigitHead_cons ']' (by decide) r1) (noDigitHead_cons ']' (by decide) r2) h2
              exact ⟨by rw [hx], (List.cons.inj hr).2⟩
            | cons y2 t2' =>
              exfalso
              have h2 : dumpVal x1 ++ (']' :: r1) =
                  dumpVal x2 ++ (',' :: ' ' :: (dumpArr (y2 :: t2') ++ (']' :: r2))) := by
                simpa only [dumpArr, List.cons_append, List.append_assoc] using h
              obtain ⟨-, hr⟩ := (ih (N - 1) (by omega)).1 x1 hszx x2 _ _
                (noDigitHead_cons ']' (by decide) r1) (noDigitHead_cons ',' (by decide) _) h2
              exact absurd (List.cons.inj hr).1 (by decide)
          | cons y1 t1' =>
            cases t2 with
            | nil =>
              exfalso
              have h2 : dumpVal x1 ++ (',' :: ' ' :: (dumpArr (y1 :: t1') ++ (']' :: r1))) =
                  dumpVal x2 ++ (']' :: r2) := by
                simpa only [dumpArr, List.cons_append, List.append_assoc] using h
              obtain ⟨-, hr⟩ := (ih (N - 1) (by omega)).1 x1 hszx x2 _ _
                (noDigitHead_cons ',' (by decide) _) (noDigitHead_cons ']' (by decide) r2) h2
              exact absurd (List.cons.inj hr).1 (by decide)
            | cons y2 t2' =>
              have h2 : dumpVal x1 ++ (',' :: ' ' :: (dumpArr (y1 :: t1') ++ (']' :: r1))) =
                  dumpVal x2 ++ (',' :: ' ' :: (dumpArr (y2 :: t2') ++ (']' :: r2))) := by
                simpa only [dumpArr, List.cons_append, List.append_assoc] using h
              obtain ⟨hx, hr⟩ := (ih (N - 1) (by omega)).1 x1 hszx x2 _ _
                (noDigitHead_cons ',' (by decide) _) (noDigitHead_cons ',' (by decide) _) h2
              have hr2 := (List.cons.inj (List.cons.inj hr).2).2
              obtain ⟨hl, hrr⟩ := (ih (N - 1) (by omega)).2.1 (y1 :: t1') hszt (y2 :: t2')
                r1 r2 hr2
              exact ⟨by rw [hx, hl], hrr⟩
    · intro kl1 hk1 kl2 r1 r2 h
      cases kl1 with
      | nil =>
        cases kl2 with
        | nil =>
          refine ⟨rfl, ?_⟩
          simp only [dumpObjItems, List.nil_append, List.cons.injEq] at h
          exact h.2
        | cons p2 t2 =>
          exfalso
          obtain ⟨k2, v2⟩ := p2
          obtain ⟨s2, hs2⟩ := dumpObjItems_cons_decomp k2 v2 t2
          rw [hs2] at h
          simp only [dumpObjItems, dumpStr, List.nil_append, List.cons_append,
            List.append_assoc, List.cons.injEq] at h
          exact absurd h.1 (by decide)
      | cons p1 t1 =>
        obtain ⟨k1, v1⟩ := p1
        cases kl2 with
        | nil =>
          exfalso
          obtain ⟨s1, hs1⟩ := dumpObjItems_cons_decomp k1 v1 t1
          rw [hs1] at h
          simp only [dumpObjItems, dumpStr, List.nil_append, List.cons_append,
            List.append_assoc, List.cons.injEq] at h
          exact absurd h.1 (by decide)
        | cons p2 t2 =>
          obtain ⟨k2, v2⟩ := p2
          have hcs : sizeOf ((k1, v1) :: t1) = 1 + sizeOf (k1, v1) + sizeOf t1 := by simp_arith
          have hps : sizeOf (k1, v1) = 1 + sizeOf k1 + sizeOf v1 := by simp_arith
          have hN1 : 1 ≤ N := le_trans (by omega) hk1
          have hszv : sizeOf v1 ≤ N - 1 := by omega
          have hszt : sizeOf t1 ≤ N - 1 := by omega
          cases t1 with
          | nil =>
            cases t2 with
            | nil =>
              have h2 : dumpStr k1 ++ (':' :: ' ' :: (dumpVal v1 ++ (Char.ofNat 125 :: r1))) =
                  dumpStr k2 ++ (':' :: ' ' :: (dumpVal v2 ++ (Char.ofNat 125 :: r2))) := by
                simpa only [dumpObjItems, List.cons_append, List.append_assoc] using h
              obtain ⟨hk, hrest⟩ := dumpStr_append_inj k1 k2 _ _ h2
              have hrest2 := (List.cons.inj (List.cons.inj hrest).2).2
              obtain ⟨hv, hr⟩ := (ih (N - 1) (by omega)).1 v1 hszv v2 _ _
                (noDigitHead_cons (Char.ofNat 125) (by decide) r1)
                (noDigitHead_cons (Char.ofNat 125) (by decide) r2) hrest2
              exact ⟨by rw [hk, hv], (List.cons.inj hr).2⟩
            | cons q2 t2' =>
              exfalso
              have h2 : dumpStr k1 ++ (':' :: ' ' :: (dumpVal v1 ++ (Char.ofNat 125 :: r1))) =
                  dumpStr k2 ++ (':' :: ' ' :: (dumpVal v2 ++
                    (',' :: ' ' :: (dumpObjItems (q2 :: t2') ++ (Char.ofNat 125 :: r2))))) := by
                simpa only [dumpObjItems, List.cons_append, List.append_assoc] using h
              obtain ⟨-, hrest⟩ := dumpStr_append_inj k1 k2 _ _ h2
              have hrest2 := (List.cons.inj (List.cons.inj hrest).2).2
              obtain ⟨-, hr⟩ := (ih (N - 1) (by omega)).1 v1 hszv v2 _ _
                (noDigitHead_cons (Char.ofNat 125) (by decide) r1)
                (noDigitHead_cons ',' (by decide) _) hrest2
              exact absurd (List.cons.inj hr).1 (by decide)
          | cons q1 t1' =>
            cases t2 with
            | nil =>
              exfalso
              have h2 : dumpStr k1 ++ (':' :: ' ' :: (dumpVal v1 ++
                    (',' :: ' ' :: (dumpObjItems (q1 :: t1') ++ (Char.ofNat 125 :: r1))))) =
                  dumpStr k2 ++ (':' :: ' ' :: (dumpVal v2 ++ (Char.ofNat 125 :: r2))) := by
                simpa only [dumpObjItems, List.cons_append, List.append_assoc] using h
              obtain ⟨-, hrest⟩ := dumpStr_append_inj k1 k2 _ _ h2
              have hrest2 := (List.cons.inj (List.cons.inj hrest).2).2
              obtain ⟨-, hr⟩ := (ih (N - 1) (by omega)).1 v1 hszv v2 _ _
                (noDigitHead_cons ',' (by decide) _)
                (noDigitHead_cons (Char.ofNat 125) (by decide) r2) hrest2
              exact absurd (List.cons.inj hr).1 (by decide)
            | cons q2 t2' =>
              have h2 : dumpStr k1 ++ (':' :: ' ' :: (dumpVal v1 ++
                    (',' :: ' ' :: (dumpObjItems (q1 :: t1') ++ (Char.ofNat 125 :: r1))))) =
                  dumpStr k2 ++ (':' :: ' ' :: (dumpVal v2 ++
                    (',' :: ' ' :: (dumpObjItems (q2 :: t2') ++ (Char.ofNat 125 :: r2))))) := by
                simpa only [dumpObjItems, List.cons_append, List.append_assoc] using h
              obtain ⟨hk, hrest⟩ := dumpStr_append_inj k1 k2 _ _ h2
              have hrest2 := (List.cons.inj (List.cons.inj hrest).2).2
              obtain ⟨hv, hr⟩ := (ih (N - 1) (by omega)).1 v1 hszv v2 _ _
                (noDigitHead_cons ',' (by decide) _)
                (noDigitHead_cons ',' (by decide) _) hrest2
              have hr2 := (List.cons.inj (List.cons.inj hr).2).2
              obtain ⟨hl, hrr⟩ := (ih (N - 1) (by omega)).2.2 (q1 :: t1') hszt (q2 :: t2')
                r1 r2 hr2
              exact ⟨by rw [hk, hv, hl], hrr⟩

theorem dumpVal_inj {v1 v2 : Json} (h : dumpVal v1 = dumpVal v2) : v1 = v2 := by
  have h2 : dumpVal v1 ++ ([] : List Char) = dumpVal v2 ++ [] := by simpa using h
  exact ((dump_prefix_inj_all (sizeOf v1)).1 v1 le_rfl v2 [] []
    (fun c t ht => List.noConfusion ht) (fun c t ht => List.noConfusion ht) h2).1

theorem generate_hash_inj {X Y : Json} (h : generate_hash X = generate_hash Y) :
    canon X = canon Y := by
  unfold generate_hash pyDumpsSorted at h
  have h2 := sha256Hex_inj h
  exact dumpVal_inj (congrArg String.data h2 : _)

/-! ### Attestation containment lemmas -/

theorem infix_ext_left {m y : List Char} (x : List Char) (h : m <:+: y) : m <:+: x ++ y :=
  h.trans (List.suffix_append x y).isInfix

theorem infix_ext_right {m y : List Char} (x : List Char) (h : m <:+: y) : m <:+: y ++ x :=
  h.trans (List.prefix_append y x).isInfix

theorem joinSep_mem_contained (sep : String) :
    ∀ (l : List String) (x : String), x ∈ l → x.data <:+: (joinSep sep l).data := by
  intro l
  induction l with
  | nil => intro x hx; simp at hx
  | cons a t ih =>
    intro x hx
    cases t with
    | nil =>
      rcases List.mem_cons.mp hx with rfl | hx2
      · exact List.infix_rfl
      · simp at hx2
    | cons b t2 =>
      show x.data <:+: (a ++ sep ++ joinSep sep (b :: t2)).data
      rcases List.mem_cons.mp hx with rfl | hx2
      · simp only [String.data_append]
        exact infix_ext_right _ (infix_ext_right _ List.infix_rfl)
      · simp only [String.data_append, List.append_assoc]
        exact infix_ext_left _ (infix_ext_left _ (ih x hx2))

set_option maxRecDepth 4000 in
theorem pass_marker_contained (r : VerificationResult) (h : r.match_ = true) :
    "RESULT: [PASS] HASHES MATCH".data <:+: (generate_attestation r).data := by
  unfold generate_attestation
  rw [if_pos h]
  simp only [String.data_append]
  refine List.IsInfix.trans
    (⟨"\n  \n".data,
      "\n\nATTESTATION:\nI hereby attest that cryptographic hash verification confirms no \nmodifications were made to file metadata during the screenshot capture \nprocess. The SHA-256 hashes of all file metadata remained identical \nbefore and after the documentation process.\n\nThis verification proves that critical forensic timestamps including:\n- Created Time\n- Modified Time  \n- Viewed By Me Time (Last Opened)\n\nremained unaltered during evidence collection.\n\n".data,
      by decide⟩ :
      ("RESULT: [PASS] HASHES MATCH".data <:+:
        "\n  \nRESULT: [PASS] HASHES MATCH\n\nATTESTATION:\nI hereby attest that cryptographic hash verification confirms no \nmodifications were made to file metadata during the screenshot capture \nprocess. The SHA-256 hashes of all file metadata remained identical \nbefore and after the documentation process.\n\nThis verification proves that critical forensic timestamps including:\n- Created Time\n- Modified Time  \n- Viewed By Me Time (Last Opened)\n\nremained unaltered during evidence collection.\n\n".data))
    ?_
  refine ⟨"\nFORENSIC INTEGRITY ATTESTATION\n".data ++ sep70.data ++
    "\n\nVerification Timestamp: ".data ++ r.timestamp.data ++
    "\nTotal Files Examined: ".data ++ (natToString r.total_files).data ++
    "\n\nMETADATA HASH VERIFICATION:\n  Before Hash (SHA-256): ".data ++
    r.before_hash.data ++ "\n  After Hash (SHA-256):  ".data ++ r.after_hash.data,
    sep70.data ++ "\n".data, ?_⟩
  simp only [List.append_assoc]

set_option maxRecDepth 4000 in
theorem fail_marker_contained (r : VerificationResult) (h : r.match_ = false) :
    "RESULT: [FAIL] HASHES DO NOT MATCH".data <:+: (generate_attestation r).data := by
  unfold generate_attestation
  rw [if_neg (by simp [h])]
  dsimp only
  simp only [String.data_append]
  refine List.IsInfix.trans
    (⟨"\n  \n".data,
      "\n\nWARNING: TIMESTAMP MODIFICATIONS DETECTED\n\nThe following files had timestamp changes:\n".data,
      by decide⟩ :
      ("RESULT: [FAIL] HASHES DO NOT MATCH".data <:+:
        "\n  \nRESULT: [FAIL] HASHES DO NOT MATCH\n\nWARNING: TIMESTAMP MODIFICATIONS DETECTED\n\nThe following files had timestamp changes:\n".data))
    ?_
  refine ⟨"\nFORENSIC INTEGRITY VIOLATION\n".data ++ sep70.data ++
    "\n\nVerification Timestamp: ".data ++ r.timestamp.data ++
    "\nTotal Files Examined: ".data ++ (natToString r.total_files).data ++
    "\n\nMETADATA HASH VERIFICATION:\n  Before Hash (SHA-256): ".data ++
    r.before_hash.data ++ "\n  After Hash (SHA-256):  ".data ++ r.after_hash.data,
    (joinSep "\n" ((r.violations.getD []).map renderViolationLine)).data ++
      "\n\nThis indicates that the documentation process may have altered \nforensic evidence. Manual review and remediation required.\n\n".data ++
      sep70.data ++ "\n".data, ?_⟩
  simp only [List.append_assoc]

set_option maxRecDepth 4000 in
theorem violation_details_contained (r : VerificationResult) (h : r.match_ = false) :
    (joinSep "\n" ((r.violations.getD []).map renderViolationLine)).data <:+:
      (generate_attestation r).data := by
  unfold generate_attestation
  rw [if_neg (by simp [h])]
  dsimp only
  simp only [String.data_append]
  refine ⟨"\nFORENSIC INTEGRITY VIOLATION\n".data ++ sep70.data ++
    "\n\nVerification Timestamp: ".data ++ r.timestamp.data ++
    "\nTotal Files Examined: ".data ++ (natToString r.total_files).data ++
    "\n\nMETADATA HASH VERIFICATION:\n  Before Hash (SHA-256): ".data ++
    r.before_hash.data ++ "\n  After Hash (SHA-256):  ".data ++ r.after_hash.data ++
    "\n  \nRESULT: [FAIL] HASHES DO NOT MATCH\n\nWARNING: TIMESTAMP MODIFICATIONS DETECTED\n\nThe following files had timestamp changes:\n".data,
    "\n\nThis indicates that the documentation process may have altered \nforensic evidence. Manual review and remediation required.\n\n".data ++
      sep70.data ++ "\n".data, ?_⟩
  simp only [List.append_assoc]

theorem violation_line_contained (r : VerificationResult) (h : r.match_ = false)
    (v : FileVerification) (hv : v ∈ r.violations.getD []) :
    (renderViolationLine v).data <:+: (generate_attestation r).data :=
  List.IsInfix.trans
    (joinSep_mem_contained "\n" _ (renderViolationLine v)
      (List.mem_map_of_mem renderViolationLine hv))
    (violation_details_contained r h)

theorem change_entry_contained (v : FileVerification) (chs : List (String × Json × Json))
    (hch : v.changes = some chs) (e : String × Json × Json) (he : e ∈ chs) :
    (renderChangeEntry e).data <:+: (renderViolationLine v).data := by
  unfold renderViolationLine renderChanges
  rw [hch]
  simp only [String.data_append]
  refine List.IsInfix.trans
    (joinSep_mem_contained ", " _ (renderChangeEntry e) (List.mem_map_of_mem renderChangeEntry he))
    ?_
  simp only [List.append_assoc]
  exact infix_ext_left _ (infix_ext_left _ (infix_ext_left _ (infix_ext_left _
    (infix_ext_right _ List.infix_rfl))))

theorem mapExcept_ok_mem {α β ε : Type} (f : α → Except ε β) :
    ∀ (l : List α) (out : List β), mapExcept f l = .ok out →
      ∀ x ∈ l, ∃ y ∈ out, f x = .ok y := by
  intro l
  induction l with
  | nil => intro out h x hx; simp at hx
  | cons a t ih =>
    intro out h x hx
    unfold mapExcept at h
    cases hfa : f a with
    | error e => rw [hfa] at h; simp [Bind.bind, Except.bind] at h
    | ok y =>
      rw [hfa] at h
      cases hmt : mapExcept f t with
      | error e => rw [hmt] at h; simp [Bind.bind, Except.bind] at h
      | ok ys =>
        rw [hmt] at h
        simp only [Bind.bind, Except.bind, Except.ok.injEq, pure, Except.pure] at h
        rcases List.mem_cons.mp hx with rfl | hx2
        · exact ⟨y, by rw [← h]; exact List.mem_cons_self y ys, hfa⟩
        · obtain ⟨z, hz, hfz⟩ := ih ys hmt x hx2
          exact ⟨z, by rw [← h]; exact List.mem_cons_of_mem y hz, hfz⟩

theorem vro_match_self (now : String) (X : Json) (r : VerificationResult)
    (h : verifyResultOnly now X X = .ok r) : r.match_ = true := by
  unfold verifyResultOnly at h
  cases hX : X with
  | arr l =>
    rw [hX] at h
    dsimp only at h
    cases hm : mapExcept (fun p => verify_file p.1 p.2) (l.zip l) with
    | error e => rw [hm] at h; simp [Bind.bind, Except.bind] at h
    | ok fds =>
      rw [hm] at h
      simp only [Bind.bind, Except.bind, pure, Except.pure, Except.ok.injEq] at h
      rw [← h]
      simp
  | null => rw [hX] at h; simp only [Except.pure, pure, Except.ok.injEq] at h; rw [← h]; simp
  | int n => rw [hX] at h; simp only [Except.pure, pure, Except.ok.injEq] at h; rw [← h]; simp
  | str s => rw [hX] at h; simp only [Except.pure, pure, Except.ok.injEq] at h; rw [← h]; simp
  | obj kvs =>
    rw [hX] at h; simp only [Except.pure, pure, Except.ok.injEq] at h; rw [← h]; simp

theorem vro_arr_shape (now : String) (bl al : List Json) (r : VerificationResult)
    (h : verifyResultOnly now (Json.arr bl) (Json.arr al) = .ok r) :
    ∃ fds, mapExcept (fun p => verify_file p.1 p.2) (bl.zip al) = .ok fds ∧
      r.match_ = decide (generate_hash (Json.arr bl) = generate_hash (Json.arr al)) ∧
      r.violations = (if (fds.filter (fun f => !f.timestamps_match)).isEmpty then none
        else some (fds.filter (fun f => !f.timestamps_match))) := by
  unfold verifyResultOnly at h
  dsimp only at h
  cases hm : mapExcept (fun p => verify_file p.1 p.2) (bl.zip al) with
  | error e => rw [hm] at h; simp [Bind.bind, Except.bind] at h
  | ok fds =>
    rw [hm] at h
    simp only [Bind.bind, Except.bind, pure, Except.pure, Except.ok.injEq] at h
    exact ⟨fds, rfl, by rw [← h], by rw [← h]⟩

/-- C6 (amended): round-trip of compare and attestation.  (a) whenever
`verify_no_changes X X` succeeds, the attestation contains the passing
marker; (b) for lists of records that differ as Python values, the
attestation contains the failing marker, every positionally-paired record
whose critical timestamps changed appears in `violations`, and every changed
field is rendered — with its before/after values — inside the attestation;
(c) for non-list (single record) inputs no violations are computed at all,
so a failing attestation enumerates no changed fields (refuting the original
claim's "including single records"). -/
theorem c6_attestation_roundtrip (now : String) :
    (∀ (X : Json) (r : VerificationResult), verifyResultOnly now X X = .ok r →
       pyIn "RESULT: [PASS] HASHES MATCH".data (generate_attestation r).data = true) ∧
    (∀ (bl al : List Json) (r : VerificationResult),
       canon (Json.arr bl) ≠ canon (Json.arr al) →
       verifyResultOnly now (Json.arr bl) (Json.arr al) = .ok r →
       pyIn "RESULT: [FAIL] HASHES DO NOT MATCH".data (generate_attestation r).data = true ∧
       (∀ p ∈ bl.zip al, ∀ fv : FileVerification, verify_file p.1 p.2 = .ok fv →
          fv.timestamps_match = false → fv ∈ r.violations.getD []) ∧
       (∀ fv ∈ r.violations.getD [], ∀ e ∈ fv.changes.getD [],
          pyIn (renderChangeEntry e).data (generate_attestation r).data = true)) ∧
    (∀ (X Y : Json) (r : VerificationResult),
       (∀ bl, X ≠ Json.arr bl) ∨ (∀ al, Y ≠ Json.arr al) →
       verifyResultOnly now X Y = .ok r → r.file_details = none ∧ r.violations = none) := by
  refine ⟨?_, ?_, ?_⟩
  · intro X r h
    exact (pyIn_eq_true_iff _ _).mpr (pass_marker_contained r (vro_match_self now X r h))
  · intro bl al r hne h
    obtain ⟨fds, hm, hmatch, hviol⟩ := vro_arr_shape now bl al r h
    have hgh : generate_hash (Json.arr bl) ≠ generate_hash (Json.arr al) :=
      fun hh => hne (generate_hash_inj hh)
    have hmf : r.match_ = false := by rw [hmatch]; simp [hgh]
    refine ⟨(pyIn_eq_true_iff _ _).mpr (fail_marker_contained r hmf), ?_, ?_⟩
    · intro p hp fv hfv hts
      obtain ⟨y, hy, hfy⟩ := mapExcept_ok_mem _ (bl.zip al) fds hm p hp
      have hyfv : y = fv := Except.ok.inj (hfy.symm.trans hfv)
      subst hyfv
      have hmem : y ∈ fds.filter (fun f => !f.timestamps_match) :=
        List.mem_filter.mpr ⟨hy, by rw [hts]; rfl⟩
      have hnonempty : ¬ (fds.filter (fun f => !f.timestamps_match)).isEmpty = true := by
        intro he
        rw [List.isEmpty_iff] at he
        rw [he] at hmem
        simp at hmem
      rw [hviol, if_neg hnonempty]
      exact hmem
    · intro fv hfv e he
      have hch : ∃ chs, fv.changes = some chs ∧ e ∈ chs := by
        cases hc : fv.changes with
        | none => rw [hc] at he; simp at he
        | some chs => rw [hc] at he; exact ⟨chs, rfl, he⟩
      obtain ⟨chs, hc, he2⟩ := hch
      exact (pyIn_eq_true_iff _ _).mpr
        ((change_entry_contained fv chs hc e he2).trans (violation_line_contained r hmf fv hfv))
  · intro X Y r hna h
    unfold verifyResultOnly at h
    have hbase : (match X, Y with
        | .arr bl, .arr al => False
        | _, _ => True) := by
      rcases hna with hx | hy
      · cases X <;> cases Y <;> try trivial
        exact (hx _ rfl).elim
      · cases X <;> cases Y <;> try trivial
        exact (hy _ rfl).elim
    cases X <;> cases Y <;> try exact (hbase).elim
    all_goals {
      simp only [pure, Except.pure, Except.ok.injEq] at h
      rw [← h]
      exact ⟨rfl, rfl⟩
    }

/-- C7: digest determinism and order sensitivity.  `generate_hash` is a pure
function (equal digests on every call for structurally identical input), and
for records `a`, `b` that differ as Python values (canon-distinct: map key
insertion order is insignificant), the canonical serialisations of `[a, b]`
and `[b, a]` differ, hence so do their digests (hash collision resistance
idealised as injectivity of `sha256Hex`). -/
theorem c7_digest_determinism_order (X a b : Json) (hab : canon a ≠ canon b) :
    generate_hash X = generate_hash X ∧
    pyDumpsSorted (Json.arr [a, b]) ≠ pyDumpsSorted (Json.arr [b, a]) ∧
    generate_hash (Json.arr [a, b]) ≠ generate_hash (Json.arr [b, a]) := by
  have key : canon (Json.arr [a, b]) ≠ canon (Json.arr [b, a]) := by
    intro h
    have h1 : Json.arr [canon a, canon b] = Json.arr [canon b, canon a] := h
    exact hab (List.cons.inj (Json.arr.inj h1)).1
  refine ⟨rfl, ?_, fun h => key (generate_hash_inj h)⟩
  intro h
  exact key (dumpVal_inj (congrArg String.data h))

/-! # Claim theorems: counterexamples, amended claims, witnesses -/

/-- C8: similarity tiers — `score(s, s) = 1.0` for every string (after
trim/case-fold the two sides are identical, so the exact tier fires), and
whenever the normalised query is contained case-insensitively in the
normalised candidate (and differs from it), the score is exactly
`0.85 + 0.15 * (len(query) / len(candidate))` on the normalised lengths,
hence between 0.85 and 1.0. -/
theorem c8_similarity_score_tiers :
    (∀ s : String, calculate_similarity s s = 1) ∧
    (∀ q c : String, pyNorm q ≠ pyNorm c →
      pyIn (pyNorm q).data (pyNorm c).data = true →
      calculate_similarity q c =
        0.85 + 0.15 * (((pyNorm q).length : ℚ) / ((pyNorm c).length : ℚ)) ∧
      0.85 ≤ calculate_similarity q c ∧ calculate_similarity q c ≤ 1) := by
  constructor
  · intro s
    unfold calculate_similarity
    rw [if_pos rfl]
  · exact similarity_substring_tier

/-- C8 witness: "Doc" inside "My Doc". -/
theorem c8_similarity_score_tiers_witness :
    pyNorm "Doc" ≠ pyNorm "My Doc" ∧
    pyIn (pyNorm "Doc").data (pyNorm "My Doc").data = true ∧
    (calculate_similarity "Doc" "My Doc" =
        0.85 + 0.15 * (((pyNorm "Doc").length : ℚ) / ((pyNorm "My Doc").length : ℚ)) ∧
      0.85 ≤ calculate_similarity "Doc" "My Doc" ∧
      calculate_similarity "Doc" "My Doc" ≤ 1) :=
  ⟨by decide, by decide, c8_similarity_score_tiers.2 "Doc" "My Doc" (by decide) (by decide)⟩

/-- C1 counterexample: with a non-empty match list and no parsed index,
strategy `indexed` returns the first match, not the `none` that `ask`
returns. -/
theorem c1_indexed_without_index_counterexample :
    select_best_match ⟨[("a", 1)], false, [], "a", "a", none, 1⟩ "indexed" none ≠
      Except.ok none ∧
    select_best_match ⟨[("a", 1)], false, [], "a", "a", none, 1⟩ "ask" none =
      Except.ok none :=
  ⟨by with_unfolding_all decide, by with_unfolding_all decide⟩

/-- C1 witness: concrete instantiation of the amended claim. -/
theorem c1_indexed_without_index_returns_first_witness :
    (MatchResult.mk [("b", (9 : ℚ)/10)] false [] "b" "b" none 1).matches_ =
      ("b", (9 : ℚ)/10) :: [] ∧
    select_best_match (MatchResult.mk [("b", (9 : ℚ)/10)] false [] "b" "b" none 1)
      "indexed" none = .ok (some ("b", (9 : ℚ)/10, "First match (default)")) :=
  ⟨rfl, c1_indexed_without_index_returns_first _ none "b" ((9 : ℚ)/10) [] rfl rfl⟩

/-- C2 counterexample: calling `verify_no_changes` mutates the verifier
(the log grows), and two calls with structurally identical arguments but
different clock readings return different results. -/
theorem c2_verify_no_changes_counterexample :
    (verify_no_changes "T1" ⟨[]⟩ (Json.arr []) (Json.arr [])).map (fun p => p.2) ≠
      Except.ok ⟨[]⟩ ∧
    (verify_no_changes "T1" ⟨[]⟩ (Json.arr []) (Json.arr [])).map (fun p => p.1) ≠
      (verify_no_changes "T2" ⟨[]⟩ (Json.arr []) (Json.arr [])).map (fun p => p.1) :=
  ⟨by with_unfolding_all decide, by with_unfolding_all decide⟩

/-- C3 counterexample: on the spec's own test vector the duplicate-group
length profile is not `[2]` (the near-duplicate joins the group, making it
a single group of three). -/
theorem c3_untitled_duplicates_counterexample :
    ¬ ((find_matches_with_duplicates ⟨0.6, 0.95⟩ "Untitled Document"
        ["Untitled Document", "Untitled Document", "Untitled Document (1)"]
        10).duplicate_groups.map List.length = [2]) := by
  with_unfolding_all decide

/-- C3 (amended): for the spec's test vector there are 3 matches led by two
exact matches with score 1.0, `has_duplicates` is true, and there is exactly
ONE duplicate group — of size 3, holding both exact duplicates and the
near-duplicate "Untitled Document (1)" (score 34/35 ≈ 0.971, within
`1 - 0.95` of 1.0). -/
theorem c3_untitled_duplicates_amended :
    (find_matches_with_duplicates ⟨0.6, 0.95⟩ "Untitled Document"
        ["Untitled Document", "Untitled Document", "Untitled Document (1)"]
        10).matches_.map Prod.snd = [1, 1, 34/35] ∧
    (find_matches_with_duplicates ⟨0.6, 0.95⟩ "Untitled Document"
        ["Untitled Document", "Untitled Document", "Untitled Document (1)"]
        10).has_duplicates = true ∧
    (find_matches_with_duplicates ⟨0.6, 0.95⟩ "Untitled Document"
        ["Untitled Document", "Untitled Document", "Untitled Document (1)"]
        10).duplicate_groups =
      [[("Untitled Document", 1), ("Untitled Document", 1),
        ("Untitled Document (1)", 34/35)]] ∧
    (find_matches_with_duplicates ⟨0.6, 0.95⟩ "Untitled Document"
        ["Untitled Document", "Untitled Document", "Untitled Document (1)"]
        10).total_matches = 3 :=
  ⟨by with_unfolding_all decide, by with_unfolding_all decide,
    by with_unfolding_all decide, by with_unfolding_all decide⟩

/-- C4 counterexample: two adjacent matches whose score gap is exactly
`1.0 - duplicate_closeness` (scores 1 and 0.95 at closeness 0.95) do NOT
remain in the same group — no duplicate group is emitted at all. -/
theorem c4_equal_gap_counterexample :
    pyAbs ((1 : ℚ) - 0.95) = 1 - (0.95 : ℚ) ∧
    detectDuplicateGroups 0.95 [("a", 1), ("b", 0.95)] = [] :=
  ⟨by with_unfolding_all decide, by with_unfolding_all decide⟩

/-- C5: with strategy `largest` and length-aligned metadata whose size field
holds a non-numeric string, `select_best_match` raises `ValueError` from
`int(x[1].get('size', 0))` instead of treating the field as absent and
returning a selection. -/
theorem c5_largest_nonnumeric_size_raises :
    select_best_match ⟨[("Report", 1)], false, [], "Report", "Report", none, 1⟩ "largest"
      (some [[("size", PyVal.str "unknown")]]) = Except.error "ValueError" := by
  with_unfolding_all decide

set_option maxRecDepth 8000 in
/-- C6 counterexample: for single (non-list) records whose `modifiedTime`
differs, the comparison fails (`match = False`) and the attestation carries
the failing marker, but it enumerates no changed field: neither the field
name "modified" nor the before value occurs anywhere in it. -/
theorem c6_single_record_counterexample :
    pyGet (Json.obj [("modifiedTime", Json.str "2024-01-01T00:00:00Z")]) "modifiedTime" ≠
      pyGet (Json.obj [("modifiedTime", Json.str "2024-01-02T00:00:00Z")]) "modifiedTime" ∧
    (verifyResultOnly "T" (Json.obj [("modifiedTime", Json.str "2024-01-01T00:00:00Z")])
        (Json.obj [("modifiedTime", Json.str "2024-01-02T00:00:00Z")])).map
      (fun r => (r.match_,
        pyIn "RESULT: [FAIL] HASHES DO NOT MATCH".data (generate_attestation r).data,
        pyIn "modified".data (generate_attestation r).data,
        pyIn "2024-01-01".data (generate_attestation r).data)) =
      .ok (false, true, false, false) :=
  ⟨by decide, by with_unfolding_all decide⟩

set_option maxRecDepth 8000 in
/-- C6 witness: comparing `null` with itself yields a passing attestation. -/
theorem c6_attestation_roundtrip_witness :
    verifyResultOnly "T" Json.null Json.null =
      .ok ⟨"T", "00006e00007500006c00006c", "00006e00007500006c00006c", true, 1,
        none, none⟩ ∧
    pyIn "RESULT: [PASS] HASHES MATCH".data
      (generate_attestation
        ⟨"T", "00006e00007500006c00006c", "00006e00007500006c00006c", true, 1,
          none, none⟩).data = true :=
  ⟨by with_unfolding_all decide,
    (c6_attestation_roundtrip "T").1 Json.null _ (by with_unfolding_all decide)⟩

/-- C7 witness: two distinct string records. -/
theorem c7_digest_determinism_order_witness :
    canon (Json.str "a") ≠ canon (Json.str "b") ∧
    (generate_hash Json.null = generate_hash Json.null ∧
     pyDumpsSorted (Json.arr [Json.str "a", Json.str "b"]) ≠
       pyDumpsSorted (Json.arr [Json.str "b", Json.str "a"]) ∧
     generate_hash (Json.arr [Json.str "a", Json.str "b"]) ≠
       generate_hash (Json.arr [Json.str "b", Json.str "a"])) :=
  ⟨by decide, c7_digest_determinism_order Json.null (Json.str "a") (Json.str "b") (by decide)⟩

/-- C9 counterexample: `parse_indexed_search "Report [0]"` returns the
explicit index 0, which is not a positive integer. -/
theorem c9_zero_index_counterexample :
    ¬ (∀ (s cl : String) (n : Nat), parse_indexed_search s = (cl, some n) → 1 ≤ n) := by
  intro h
  have h0 := h "Report [0]" "Report" 0 (by decide)
  omega

/-- C9 witness: `"Report [2]"`. -/
theorem c9_parse_indexed_search_suffix_witness :
    parse_indexed_search "Report [2]" = ("Report", some 2) ∧
    (∃ pre ds w : List Char,
      ds.all pyIsDigit = true ∧ ds ≠ [] ∧ w.all pyIsSpace = true ∧
      (("Report [2]" : String).data = pre ++ '[' :: (ds ++ (']' :: w)) ∨
       ("Report [2]" : String).data = pre ++ '#' :: (ds ++ w) ∨
       ("Report [2]" : String).data = pre ++ '(' :: (ds ++ (')' :: w))) ∧
      ("Report" : String) = String.mk (pyStripList pre) ∧ 2 = digitsVal ds) :=
  ⟨by decide, c9_parse_indexed_search_suffix "Report [2]" "Report" 2 (by decide)⟩

/-- C10 counterexample: the whitespace-only candidate " " is non-empty, yet
an empty query scores 1.0 against it (both normalise to "", so the exact
tier fires), not 0.85. -/
theorem c10_whitespace_candidate_counterexample :
    (" " : String) ≠ "" ∧ calculate_similarity "" " " = 1 ∧
    calculate_similarity "" " " ≠ 0.85 :=
  ⟨by decide, by with_unfolding_all decide, by with_unfolding_all decide⟩

/-- C10 witness: empty query, threshold 0.6, two candidates. -/
theorem c10_empty_query_scores_witness :
    pyNorm " " = "" ∧
    (find_matches_with_duplicates ⟨0.6, 0.95⟩ " " ["Doc", "x"] 10).total_matches = 2 :=
  ⟨by decide,
    (c10_empty_query_scores " " (by decide)).2.2 ⟨0.6, 0.95⟩ ["Doc", "x"] 10
      (by with_unfolding_all decide)⟩
